import Mathlib

/-!
Verification development for the slug assignment and uniqueness-resolution
logic of the Django-Blog repository.

The embedded code is:
  * `django.utils.text.slugify` (the ASCII fragment, `allow_unicode=False`),
    as called by `comments/serializers.py`, `posts/serializers.py`,
    `category/serializers.py` and `category/models.py`;
  * `CommentCRUDSerializer._generate_unique_slug` (comments/serializers.py,
    lines 176-188): truncation to `SLUG_MAX_LENGTH` and the suffix-probing
    `while` loop over `Comment.active_comments`;
  * the serializer-level create and update operations of the comment, post
    and category collections, including the field validators
    (`UniqueValidator` querysets) and, for categories, the model `save`
    and the model-level unique constraint on `slug` (category/models.py).

Collections are modelled as lists of records; the uniqueness probe
(`queryset.filter(slug=...).exists()`) is list membership over the slugs of
the records the queryset selects.
-/

deriving instance DecidableEq for Except

namespace Blog

/-! ### The slugifier

`django.utils.text.slugify` with `allow_unicode=False`:

    value = unicodedata.normalize("NFKD", value).encode("ascii", "ignore").decode("ascii")
    value = re.sub(r"[^\w\s-]", "", value.lower())
    return re.sub(r"[-\s]+", "-", value).strip("-_")

We model the ASCII fragment: the NFKD-then-ascii-ignore step is modelled as
dropping every non-ASCII character (on ASCII input it is the identity). -/

/-- ASCII `\w`: `[A-Za-z0-9_]`. -/
def isWordChar (c : Char) : Bool :=
  ('a' ≤ c && c ≤ 'z') || ('A' ≤ c && c ≤ 'Z') || ('0' ≤ c && c ≤ '9') || c = '_'

/-- ASCII `\s`: space, tab, newline, carriage return, vertical tab, form feed. -/
def isSpaceChar (c : Char) : Bool :=
  c = ' ' || c = '\t' || c = '\n' || c = '\r' || c = '\x0b' || c = '\x0c'

/-- A character consumed by `re.sub(r"[-\s]+", "-", value)`. -/
def isSepChar (c : Char) : Bool :=
  isSpaceChar c || c = '-'

/-- `re.sub(r"[-\s]+", "-", value)`, processed left to right; the flag
records whether the previous character belonged to a separator run, so each
maximal run of hyphens and whitespace contributes exactly one hyphen. -/
def collapseAux : Bool → List Char → List Char
  | _, [] => []
  | prevSep, c :: cs =>
    if isSepChar c then
      if prevSep then collapseAux true cs else '-' :: collapseAux true cs
    else c :: collapseAux false cs

/-- `re.sub(r"[-\s]+", "-", value)`: every maximal run of hyphens and
whitespace becomes a single hyphen. -/
def collapseSeps (l : List Char) : List Char :=
  collapseAux false l

/-- A character stripped from the ends by `.strip("-_")`. -/
def isStripChar (c : Char) : Bool :=
  c = '-' || c = '_'

/-- `str.strip(chars)`: drop characters satisfying `p` from both ends. -/
def stripBoth (p : Char → Bool) (l : List Char) : List Char :=
  ((l.dropWhile p).reverse.dropWhile p).reverse

/-- `django.utils.text.slugify` (ASCII fragment, `allow_unicode=False`). -/
def slugify (s : String) : String :=
  let ascii := s.data.filter (fun c => c.toNat < 128)
  let lowered := ascii.map Char.toLower
  let cleaned := lowered.filter (fun c => isWordChar c || isSpaceChar c || c = '-')
  String.mk (stripBoth isStripChar (collapseSeps cleaned))

/-- Python `s[:n]` on a string: the first `n` characters. -/
def strTake (s : String) (n : Nat) : String :=
  String.mk (s.data.take n)

/-- Python `str.lower()` (ASCII fragment). -/
def pyLower (s : String) : String :=
  String.mk (s.data.map Char.toLower)

/-- Python `str.strip()` with no argument: strip whitespace from both ends. -/
def pyStrip (s : String) : String :=
  String.mk (stripBoth isSpaceChar s.data)

/-! ### Decimal rendering

`f"{base_slug}-{num}"` renders `num` in decimal.  `decDigitsAux` is the
fuel-structured computation (fuel `n + 1` always suffices); `decDigitsWF` is
the same function by well-founded recursion, used for reasoning. -/

/-- The decimal digit character for `d < 10`. -/
def decChar (d : Nat) : Char :=
  Char.ofNat (48 + d)

/-- Decimal digits of `n`, most significant first, pushed onto `acc`. -/
def decDigitsAux : Nat → Nat → List Char → List Char
  | 0, _, acc => acc
  | fuel + 1, n, acc =>
    if n < 10 then decChar n :: acc
    else decDigitsAux fuel (n / 10) (decChar (n % 10) :: acc)

/-- Decimal digits of `n`, most significant first. -/
def decDigitsWF : Nat → List Char
  | n =>
    if _h : n < 10 then [decChar n]
    else decDigitsWF (n / 10) ++ [decChar (n % 10)]
termination_by n => n
decreasing_by exact Nat.div_lt_self (by omega) (by omega)

/-- Python decimal rendering of a natural number, as in `f"...{num}"`. -/
def natStr (n : Nat) : String :=
  String.mk (decDigitsAux (n + 1) n [])

/-- The candidate string `f"{base_slug}-{num}"`. -/
def suffCand (base : String) (num : Nat) : String :=
  base ++ "-" ++ natStr num

/-! ### The comment suffix-probing loop

`CommentCRUDSerializer._generate_unique_slug` (comments/serializers.py):

    base_slug = slugify(title)[:SLUG_MAX_LENGTH]
    unique_slug = base_slug
    num = 1
    while Comment.active_comments.filter(slug=unique_slug).exists():
        unique_slug = f"{base_slug}-{num}"
        num += 1
    return unique_slug

`taken` is the list of slugs the probed queryset selects (the slugs of the
active comments).  The `while` loop is embedded with explicit fuel; with fuel
at least `taken.length + 1` the fall-through value is never consulted
(`suffixLoop_spec` below), which is the termination argument. -/

/-- `SLUG_MAX_LENGTH` (comments/serializers.py, line 20). -/
def SLUG_MAX_LENGTH : Nat := 100

/-- The suffix-probing `while` loop, already past the initial probe of the
bare base slug: probes `base-num`, `base-(num+1)`, … -/
def suffixLoop (taken : List String) (base : String) : Nat → Nat → String
  | num, 0 => suffCand base num
  | num, fuel + 1 =>
    if suffCand base num ∈ taken then suffixLoop taken base (num + 1) fuel
    else suffCand base num

/-- `CommentCRUDSerializer._generate_unique_slug`. -/
def generate_unique_slug (taken : List String) (title : String) : String :=
  let base := strTake (slugify title) SLUG_MAX_LENGTH
  if base ∈ taken then suffixLoop taken base 1 (taken.length + 1)
  else base

/-- Number of probes (`exists()` queries) the loop makes from `base-num` on. -/
def suffixLoopProbes (taken : List String) (base : String) : Nat → Nat → Nat
  | _, 0 => 0
  | num, fuel + 1 =>
    if suffCand base num ∈ taken then 1 + suffixLoopProbes taken base (num + 1) fuel
    else 1

/-- Total number of probes (`exists()` queries) `_generate_unique_slug`
makes: one for the bare base slug, plus one per suffixed candidate tried. -/
def slugProbes (taken : List String) (title : String) : Nat :=
  let base := strTake (slugify title) SLUG_MAX_LENGTH
  if base ∈ taken then 1 + suffixLoopProbes taken base 1 (taken.length + 1)
  else 1



/-! ### Serializer-level operations

The three collections are modelled as lists of rows plus a fresh-id counter.
Client payloads use `Option String` per field, `none` meaning the key is
absent from the request data.  Raised `ValidationError`s are `Except.error`
values; a failed operation leaves the collection unchanged. -/

/-- The errors the embedded operations can raise. -/
inductive VErr where
  /-- A field-level length, format or requiredness check failed. -/
  | fieldInvalid
  /-- A uniqueness check on the slug field failed (the error names `slug`). -/
  | slugConflict
  /-- Comments `validate`: content missing, empty or whitespace-only. -/
  | contentEmpty
  /-- Posts `validate_title`: a post with this title already exists. -/
  | titleTaken
  /-- Categories `validate_title`: title empty or whitespace-only. -/
  | titleEmpty
  /-- A database unique-constraint violation on a slug column. -/
  | integrityError
deriving DecidableEq

/-- A character admitted by the `SlugField` pattern `[-a-zA-Z0-9_]`. -/
def isSlugChar (c : Char) : Bool :=
  ('a' ≤ c && c ≤ 'z') || ('A' ≤ c && c ≤ 'Z') || ('0' ≤ c && c ≤ '9') || c = '-' || c = '_'

/-- DRF `SlugField` format validation: non-empty and slug characters only. -/
def isDjangoSlug (s : String) : Bool :=
  (s != "") && s.data.all isSlugChar

/-- Truthiness of `attrs.get(key)` for an optional string: `none` (key
absent) and `some ""` (blank) are both falsy. -/
def optFalsy : Option String → Bool
  | none => true
  | some s => s == ""

/-- `MAX_TITLE_LENGTH` (comments/serializers.py, line 18). -/
def MAX_TITLE_LENGTH : Nat := 100

/-- `MAX_CONTENT_LENGTH` (comments/serializers.py, line 19). -/
def MAX_CONTENT_LENGTH : Nat := 500

/-! #### Comments -/

/-- A stored comment row (the fields relevant to slug behaviour).  The
comment model file is not part of the sources; the `is_active` flag and the
`active_comments` manager semantics are fixed by the serializer, whose
read-only `is_active` field and documented example show newly created
comments as active. -/
structure CommentRec where
  id : Nat
  title : String
  content : String
  slug : String
  isActive : Bool
deriving DecidableEq

/-- The slugs the probe `Comment.active_comments.filter(slug=...)` and the
slug field `UniqueValidator(queryset=Comment.active_comments.all())`
consult: slugs of rows with `is_active = True`. -/
def activeSlugs (recs : List CommentRec) : List String :=
  (recs.filter (fun r => r.isActive)).map (fun r => r.slug)

/-- A comment collection: stored rows plus the next fresh primary key. -/
structure CommentDB where
  nextId : Nat
  recs : List CommentRec
deriving DecidableEq

/-- The empty comment collection. -/
def commentEmpty : CommentDB := ⟨0, []⟩

/-- Client payload for comment create/update; `none` = key absent. -/
structure CommentInput where
  title : Option String
  content : Option String
  slug : Option String
deriving DecidableEq

/-- DRF field-level validation for `CommentCRUDSerializer` other than slug
uniqueness: title `min_length=3`/`max_length=100`; content
`min_length=10`/`max_length=500` when present (absence is reported by
`validate` instead); slug format and `max_length=100` when non-blank. -/
def commentFieldsOK (inp : CommentInput) : Bool :=
  (match inp.title with
   | some t => 3 ≤ t.length && t.length ≤ MAX_TITLE_LENGTH
   | none => true) &&
  (match inp.content with
   | some c => 10 ≤ c.length && c.length ≤ MAX_CONTENT_LENGTH
   | none => true) &&
  (match inp.slug with
   | some s => s == "" || (isDjangoSlug s && s.length ≤ SLUG_MAX_LENGTH)
   | none => true)

/-- The title `validate` settles on: the provided title if truthy, else the
auto-generated `content[:50] + '...' if len(content) > 50 else content`. -/
def commentEffTitle (inp : CommentInput) (content : String) : String :=
  if optFalsy inp.title then
    (if content.length > 50 then strTake content 50 ++ "..." else content)
  else inp.title.getD ""

/-- `CommentCRUDSerializer` create: DRF field validation (including the slug
`UniqueValidator` over active comments), `validate` (lines 155-174), then
`create` (lines 190-234; the post association is elided — it never touches
slugs).  The new row is stored active. -/
def commentCreate (db : CommentDB) (inp : CommentInput) : Except VErr CommentDB :=
  if ¬ commentFieldsOK inp then .error .fieldInvalid
  else if inp.slug.any (fun s => s != "" && decide (s ∈ activeSlugs db.recs)) then
    .error .slugConflict
  else if pyStrip (inp.content.getD "") == "" then .error .contentEmpty
  else
    .ok ⟨db.nextId + 1,
      ⟨db.nextId, commentEffTitle inp (inp.content.getD ""), inp.content.getD "",
        (if optFalsy inp.slug then
          generate_unique_slug (activeSlugs db.recs) (commentEffTitle inp (inp.content.getD ""))
        else inp.slug.getD ""), true⟩ :: db.recs⟩

/-- `CommentCRUDSerializer` update (lines 236-251): the field-level slug
`UniqueValidator` excludes the instance; `validate` requires non-blank
content and fills in the title; `update` copies the editable fields and then
always regenerates the slug from the effective title (the `title` key is
always present after `validate`), probing all active comments without
excluding the instance. -/
def commentUpdate (db : CommentDB) (i : Nat) (inp : CommentInput) : Except VErr CommentDB :=
  if ¬ commentFieldsOK inp then .error .fieldInvalid
  else if inp.slug.any (fun s =>
      s != "" && decide (s ∈ activeSlugs (db.recs.filter (fun r => r.id ≠ i)))) then
    .error .slugConflict
  else if pyStrip (inp.content.getD "") == "" then .error .contentEmpty
  else
    .ok ⟨db.nextId, db.recs.map (fun r =>
      if r.id = i then
        { r with
          title := commentEffTitle inp (inp.content.getD ""),
          content := inp.content.getD "",
          slug := generate_unique_slug (activeSlugs db.recs)
            (commentEffTitle inp (inp.content.getD "")) }
      else r)⟩

/-! #### Posts -/

/-- `STATUS.DRAFT` (posts/choices.py). -/
def STATUS_DRAFT : String := "draft"

/-- `STATUS.PUBLISH` (posts/choices.py). -/
def STATUS_PUBLISH : String := "publish"

/-- A stored post row (the fields relevant to slug behaviour). -/
structure PostRec where
  id : Nat
  title : String
  slug : String
  status : String
  isActive : Bool
deriving DecidableEq

/-- The queryset of `Post.published` (posts/managers.py): rows with
`status = publish` and `is_active = True`; the slug field
`UniqueValidator(queryset=Post.published.all())` probes these slugs. -/
def publishedSlugs (recs : List PostRec) : List String :=
  (recs.filter (fun r => r.status == STATUS_PUBLISH && r.isActive)).map (fun r => r.slug)

/-- A post collection. -/
structure PostDB where
  nextId : Nat
  recs : List PostRec
deriving DecidableEq

/-- The empty post collection. -/
def postEmpty : PostDB := ⟨0, []⟩

/-- Client payload for post create/update; `status` is a writable field. -/
structure PostInput where
  title : Option String
  slug : Option String
  status : Option String
deriving DecidableEq

/-- Modelled from the spec: the post model (and with it the `status` and
`is_active` column defaults) is not in the repository sources.  The spec
treats newly created records as active members of their collection, and
`PublishedPostsManager.create` (posts/managers.py) defaults `status` to
publish; creation is modelled accordingly. -/
def postDefaultStatus : String := STATUS_PUBLISH

/-- DRF field-level validation for `PostCRUDSerializer` other than
uniqueness: slug format and `max_length=100` when non-blank; `status` must
be one of the `STATUS` choices when present. -/
def postFieldsOK (inp : PostInput) : Bool :=
  (match inp.slug with
   | some s => s == "" || (isDjangoSlug s && s.length ≤ 100)
   | none => true) &&
  (match inp.status with
   | some st => st == STATUS_DRAFT || st == STATUS_PUBLISH
   | none => true)

/-- The slug value `PostCRUDSerializer.update` leaves in `validated_data`:
recomputed as `slugify(title).lower()` when the payload has a title and no
truthy slug, otherwise whatever the payload carried. -/
def postSlugAttr (inp : PostInput) : Option String :=
  match inp.title, inp.slug with
  | some t, none => some (pyLower (slugify t))
  | some t, some s => if s == "" then some (pyLower (slugify t)) else some s
  | none, o => o

/-- Modelled from the spec: the post model file is not under src/, so the
storage layer behind `Post._default_manager.create` and `instance.save()`
is taken from the spec.  Section 5 makes a storage-level uniqueness
constraint the authoritative guard for the invariant of section 3 (no two
active records of a collection share a slug); for posts the collection's
active records are the published active rows, the ones `Post.published`
(posts/managers.py) selects.  Writing a published active row whose slug
another published active row already holds therefore fails with an
integrity error; a row outside that set commits. -/
def postStoreWrite (others : List PostRec) (r : PostRec) : Except VErr PostRec :=
  if r.status == STATUS_PUBLISH && r.isActive &&
      decide (r.slug ∈ publishedSlugs others) then
    .error .integrityError
  else .ok r

/-- The row `PostCRUDSerializer.update` writes back: every validated field
copied onto the instance. -/
def postUpdatedRow (inp : PostInput) (r0 : PostRec) : PostRec :=
  { r0 with
    title := inp.title.getD r0.title,
    slug := (match postSlugAttr inp with | some s => s | none => r0.slug),
    status := inp.status.getD r0.status }

/-- `PostCRUDSerializer` create: `validate_title` (lines 179-189, against
all posts), the slug `UniqueValidator` (against published posts), then
`create` (lines 100-134): absent or blank slug is replaced by
`slugify(title)`, the stored slug is lowercased, and the row is written
through the store (whose failure the `try/except` of lines 118-123 turns
into a raised validation error). -/
def postCreate (db : PostDB) (inp : PostInput) : Except VErr PostDB :=
  if ¬ postFieldsOK inp then .error .fieldInvalid
  else if inp.title.any (fun t => db.recs.any (fun r => r.title == t)) then
    .error .titleTaken
  else if inp.slug.any (fun s => s != "" && decide (s ∈ publishedSlugs db.recs)) then
    .error .slugConflict
  else
    match postStoreWrite db.recs
        ⟨db.nextId, inp.title.getD "",
          pyLower (if (inp.slug.getD "") == "" then slugify (inp.title.getD "")
                   else inp.slug.getD ""),
          inp.status.getD postDefaultStatus, true⟩ with
    | .error e => .error e
    | .ok r => .ok ⟨db.nextId + 1, r :: db.recs⟩

/-- `PostCRUDSerializer` update (lines 136-158): `validate_title` and the
slug `UniqueValidator` exclude the instance; then, when the payload has a
title and no truthy slug, the slug is recomputed as
`slugify(title).lower()`, every validated field is copied onto the
instance, and `instance.save()` writes the row through the store (an
integrity failure there propagates as an error and nothing commits). -/
def postUpdate (db : PostDB) (i : Nat) (inp : PostInput) : Except VErr PostDB :=
  if ¬ postFieldsOK inp then .error .fieldInvalid
  else if inp.title.any (fun t =>
      (db.recs.filter (fun r => r.id ≠ i)).any (fun (r : PostRec) => r.title == t)) then
    .error .titleTaken
  else if inp.slug.any (fun s =>
      s != "" && decide (s ∈ publishedSlugs (db.recs.filter (fun (r : PostRec) => r.id ≠ i)))) then
    .error .slugConflict
  else
    match db.recs.find? (fun r => r.id == i) with
    | none => .ok db
    | some r0 =>
      match postStoreWrite (db.recs.filter (fun r => r.id ≠ i)) (postUpdatedRow inp r0) with
      | .error e => .error e
      | .ok r2 => .ok ⟨db.nextId, db.recs.map (fun r => if r.id = i then r2 else r)⟩

/-! #### Categories -/

/-- A stored category row.  `title` and `slug` are the model fields
(category/models.py); `is_active` comes from the common base model (not in
the sources), with new rows stored active. -/
structure CatRec where
  id : Nat
  title : String
  slug : String
  isActive : Bool
deriving DecidableEq

/-- The slugs `Category.objects` (all rows) holds — the queryset both the
field `UniqueValidator` and `validate` probe. -/
def catSlugs (recs : List CatRec) : List String :=
  recs.map (fun r => r.slug)

/-- A category collection. -/
structure CatDB where
  nextId : Nat
  recs : List CatRec
deriving DecidableEq

/-- The empty category collection. -/
def catEmpty : CatDB := ⟨0, []⟩

/-- Client payload for category create/update. -/
structure CatInput where
  title : Option String
  slug : Option String
deriving DecidableEq

/-- DRF field-level validation for `CategoryCRUDSerializer` other than
uniqueness: title `max_length=100`; slug format and `max_length=100` when
non-blank. -/
def categoryFieldsOK (inp : CatInput) : Bool :=
  (match inp.title with
   | some t => t.length ≤ 100
   | none => true) &&
  (match inp.slug with
   | some s => s == "" || (isDjangoSlug s && s.length ≤ 100)
   | none => true)

/-- `Category.save` (category/models.py lines 17-26) followed by the
database write: a falsy slug is replaced by `slugify(title)`, and the
model-level `unique=True` constraint on `slug` makes the write fail with an
integrity error when another row holds the same slug. -/
def categorySave (others : List CatRec) (r : CatRec) : Except VErr CatRec :=
  if (if r.slug == "" then slugify r.title else r.slug) ∈ catSlugs others then
    .error .integrityError
  else .ok { r with slug := if r.slug == "" then slugify r.title else r.slug }

/-- The title `validate_title` leaves in `attrs`: the stripped payload
title, when one is present. -/
def catTitleAttr (inp : CatInput) : Option String :=
  inp.title.map pyStrip

/-- The slug value `CategoryCRUDSerializer.validate` leaves in `attrs`:
filled from the (stripped) title when the payload has a title and no truthy
slug, otherwise whatever the payload carried. -/
def catSlugAttr (inp : CatInput) : Option String :=
  match catTitleAttr inp, inp.slug with
  | some t, none => some (slugify t)
  | some t, some s => if s == "" then some (slugify t) else some s
  | none, o => o

/-- The slug `validate` settles on during creation (title always present):
`slugify(title)` when the payload slug is falsy, else the explicit slug. -/
def catCreateSlug (inp : CatInput) (t : String) : String :=
  if optFalsy inp.slug then slugify t else inp.slug.getD ""

/-- `CategoryCRUDSerializer` create: `validate_title` (strip, reject
blank), the field `UniqueValidator` on a non-blank explicit slug, `validate`
(lines 89-108: fill the slug from the title when falsy, then reject a taken
slug), `create` (lines 110-119), and the model save with its unique
constraint. -/
def categoryCreate (db : CatDB) (inp : CatInput) : Except VErr CatDB :=
  if ¬ categoryFieldsOK inp then .error .fieldInvalid
  else
    match inp.title with
    | none => .error .fieldInvalid
    | some t0 =>
      if pyStrip t0 == "" then .error .titleEmpty
      else if inp.slug.any (fun s => s != "" && decide (s ∈ catSlugs db.recs)) then
        .error .slugConflict
      else if catCreateSlug inp (pyStrip t0) ∈ catSlugs db.recs then .error .slugConflict
      else
        match categorySave db.recs
            ⟨db.nextId, pyStrip t0,
              (if catCreateSlug inp (pyStrip t0) == "" then slugify (pyStrip t0)
               else catCreateSlug inp (pyStrip t0)), true⟩ with
        | .error e => .error e
        | .ok r => .ok ⟨db.nextId + 1, r :: db.recs⟩

/-- `CategoryCRUDSerializer` update (lines 121-130): `validate_title`, the
field `UniqueValidator` excluding the instance, `validate` (fill the slug
from the title when the payload has a title and no truthy slug, then reject
a slug taken by another row), then the generic model-serializer update and
the model save with its unique constraint. -/
def categoryUpdate (db : CatDB) (i : Nat) (inp : CatInput) : Except VErr CatDB :=
  if ¬ categoryFieldsOK inp then .error .fieldInvalid
  else if inp.title.any (fun t0 => pyStrip t0 == "") then .error .titleEmpty
  else if inp.slug.any (fun s =>
      s != "" && decide (s ∈ catSlugs (db.recs.filter (fun (r : CatRec) => r.id ≠ i)))) then
    .error .slugConflict
  else if (catSlugAttr inp).any (fun s =>
      decide (s ∈ catSlugs (db.recs.filter (fun (r : CatRec) => r.id ≠ i)))) then
    .error .slugConflict
  else
    match db.recs.find? (fun r => r.id == i) with
    | none => .ok db
    | some r0 =>
      match categorySave (db.recs.filter (fun r => r.id ≠ i))
          { r0 with
            title := (catTitleAttr inp).getD r0.title,
            slug := (match catSlugAttr inp with | some s => s | none => r0.slug) } with
      | .error e => .error e
      | .ok r2 => .ok ⟨db.nextId, db.recs.map (fun r => if r.id = i then r2 else r)⟩

/-! #### Operation sequences -/

/-- A comment serializer operation. -/
inductive CommentOp where
  | create (inp : CommentInput)
  | update (i : Nat) (inp : CommentInput)
deriving DecidableEq

/-- Apply one comment operation; a raised error leaves the state unchanged. -/
def commentStep (db : CommentDB) : CommentOp → CommentDB
  | .create inp =>
    match commentCreate db inp with
    | .ok db2 => db2
    | .error _ => db
  | .update i inp =>
    match commentUpdate db i inp with
    | .ok db2 => db2
    | .error _ => db

/-- Run a sequence of comment operations. -/
def commentRun (db : CommentDB) (ops : List CommentOp) : CommentDB :=
  ops.foldl commentStep db

/-- A post serializer operation. -/
inductive PostOp where
  | create (inp : PostInput)
  | update (i : Nat) (inp : PostInput)
deriving DecidableEq

/-- Apply one post operation; a raised error leaves the state unchanged. -/
def postStep (db : PostDB) : PostOp → PostDB
  | .create inp =>
    match postCreate db inp with
    | .ok db2 => db2
    | .error _ => db
  | .update i inp =>
    match postUpdate db i inp with
    | .ok db2 => db2
    | .error _ => db

/-- Run a sequence of post operations. -/
def postRun (db : PostDB) (ops : List PostOp) : PostDB :=
  ops.foldl postStep db

/-- A category serializer operation. -/
inductive CatOp where
  | create (inp : CatInput)
  | update (i : Nat) (inp : CatInput)
deriving DecidableEq

/-- Apply one category operation; a raised error leaves the state unchanged. -/
def catStep (db : CatDB) : CatOp → CatDB
  | .create inp =>
    match categoryCreate db inp with
    | .ok db2 => db2
    | .error _ => db
  | .update i inp =>
    match categoryUpdate db i inp with
    | .ok db2 => db2
    | .error _ => db

/-- Run a sequence of category operations. -/
def catRun (db : CatDB) (ops : List CatOp) : CatDB :=
  ops.foldl catStep db

/-! #### Invariants -/

/-- No two active comment rows share a slug. -/
def commentSlugsOK (recs : List CommentRec) : Prop :=
  recs.Pairwise (fun r₁ r₂ => r₁.isActive → r₂.isActive → r₁.slug ≠ r₂.slug)

/-- Well-formedness of a comment collection: fresh counter above all ids,
distinct ids, and the slug-uniqueness invariant. -/
def commentWF (db : CommentDB) : Prop :=
  (∀ r ∈ db.recs, r.id < db.nextId) ∧
  (db.recs.map (fun r => r.id)).Nodup ∧
  commentSlugsOK db.recs

/-- No two active post rows — published active rows, the records
`Post.published` selects — share a slug. -/
def postPublishedSlugsOK (recs : List PostRec) : Prop :=
  recs.Pairwise (fun r₁ r₂ =>
    r₁.status = STATUS_PUBLISH → r₁.isActive = true →
    r₂.status = STATUS_PUBLISH → r₂.isActive = true → r₁.slug ≠ r₂.slug)

/-- Well-formedness of a post collection. -/
def postWF (db : PostDB) : Prop :=
  (∀ r ∈ db.recs, r.id < db.nextId) ∧
  (db.recs.map (fun r => r.id)).Nodup ∧
  postPublishedSlugsOK db.recs

/-- No two active category rows share a slug. -/
def catSlugsOK (recs : List CatRec) : Prop :=
  recs.Pairwise (fun r₁ r₂ => r₁.isActive → r₂.isActive → r₁.slug ≠ r₂.slug)

/-- Well-formedness of a category collection. -/
def catWF (db : CatDB) : Prop :=
  (∀ r ∈ db.recs, r.id < db.nextId) ∧
  (db.recs.map (fun r => r.id)).Nodup ∧
  catSlugsOK db.recs

/-- Decimal value of a digit string (left fold), used to invert `decDigitsWF`. -/
def decValFrom (a : Nat) (l : List Char) : Nat :=
  l.foldl (fun acc c => acc * 10 + (c.toNat - 48)) a

/-! ### Lemmas: decimal rendering and candidate strings -/

theorem decDigitsAux_eq (n : Nat) : ∀ fuel acc, n < fuel →
    decDigitsAux fuel n acc = decDigitsWF n ++ acc := by
  induction n using Nat.strong_induction_on with
  | _ n ih =>
    intro fuel acc hfuel
    match fuel with
    | fuel + 1 =>
      rw [decDigitsAux, decDigitsWF]
      by_cases h : n < 10
      · simp [h]
      · have hn : 0 < n := by omega
        have hdiv : n / 10 < n := Nat.div_lt_self hn (by omega)
        rw [if_neg h, dif_neg h, ih (n / 10) hdiv fuel _ (by omega), List.append_assoc]
        rfl

theorem natStr_eq (n : Nat) : natStr n = String.mk (decDigitsWF n) := by
  rw [natStr, decDigitsAux_eq n (n + 1) [] (by omega), List.append_nil]

/-- Value of a decimal digit character. -/
theorem decChar_toNat {d : Nat} (h : d < 10) : (decChar d).toNat = 48 + d := by
  interval_cases d <;> decide

theorem decValFrom_append (a : Nat) (l₁ l₂ : List Char) :
    decValFrom a (l₁ ++ l₂) = decValFrom (decValFrom a l₁) l₂ :=
  List.foldl_append ..

theorem decValFrom_decDigitsWF (n : Nat) : ∀ a, decValFrom a (decDigitsWF n) = a * 10 ^ (decDigitsWF n).length + n := by
  induction n using Nat.strong_induction_on with
  | _ n ih =>
    intro a
    rw [decDigitsWF]
    by_cases h : n < 10
    · rw [dif_pos h]
      simp [decValFrom, List.foldl, decChar_toNat h]
    · have hn : 0 < n := by omega
      have hdiv : n / 10 < n := Nat.div_lt_self hn (by omega)
      rw [dif_neg h, decValFrom_append, ih (n / 10) hdiv a]
      have hmod : n % 10 < 10 := Nat.mod_lt _ (by omega)
      have hdm := Nat.div_add_mod n 10
      simp [decValFrom, List.foldl, decChar_toNat hmod, List.length_append, pow_succ]
      ring_nf
      omega

theorem decDigitsWF_val (n : Nat) : decValFrom 0 (decDigitsWF n) = n := by
  have := decValFrom_decDigitsWF n 0
  simpa using this

theorem decDigitsWF_inj {m n : Nat} (h : decDigitsWF m = decDigitsWF n) : m = n := by
  have hm := decDigitsWF_val m
  rw [h, decDigitsWF_val] at hm
  omega

theorem natStr_inj {m n : Nat} (h : natStr m = natStr n) : m = n := by
  rw [natStr_eq, natStr_eq] at h
  exact decDigitsWF_inj (congrArg String.data h)

theorem suffCand_data (base : String) (n : Nat) :
    (suffCand base n).data = base.data ++ '-' :: (natStr n).data := by
  rw [suffCand, String.data_append, String.data_append]
  simp

theorem suffCand_inj {base : String} {m n : Nat}
    (h : suffCand base m = suffCand base n) : m = n := by
  have hd := congrArg String.data h
  rw [suffCand_data, suffCand_data] at hd
  have h2 := List.append_cancel_left hd
  have h3 : (natStr m).data = (natStr n).data := by injection h2
  exact natStr_inj (String.ext h3)

theorem suffCand_ne_base (base : String) (n : Nat) : suffCand base n ≠ base := by
  intro h
  have hd := congrArg String.data h
  rw [suffCand_data] at hd
  have : base.data.length = base.data.length + ('-' :: (natStr n).data).length := by
    conv_lhs => rw [← hd]
    rw [List.length_append]
  simp at this

/-! ### Lemmas: the suffix-probing loop -/

theorem suffixLoop_eq (taken : List String) (base : String) (fuel : Nat) :
    ∀ num k, num ≤ k → k < num + fuel →
      suffCand base k ∉ taken →
      (∀ j, num ≤ j → j < k → suffCand base j ∈ taken) →
      suffixLoop taken base num fuel = suffCand base k := by
  induction fuel with
  | zero =>
    intro num k h1 h2 _ _
    omega
  | succ fuel ih =>
    intro num k h1 h2 hfree hbusy
    rw [suffixLoop]
    by_cases hc : suffCand base num ∈ taken
    · rw [if_pos hc]
      have hne : num ≠ k := by
        intro e
        exact hfree (e ▸ hc)
      exact ih (num + 1) k (by omega) (by omega) hfree
        (fun j hj1 hj2 => hbusy j (by omega) hj2)
    · rw [if_neg hc]
      have hk : k = num := by
        rcases Nat.eq_or_lt_of_le h1 with h | h
        · omega
        · exact absurd (hbusy num (Nat.le_refl _) h) hc
      rw [hk]

theorem suffixLoopProbes_eq (taken : List String) (base : String) (fuel : Nat) :
    ∀ num k, num ≤ k → k < num + fuel →
      suffCand base k ∉ taken →
      (∀ j, num ≤ j → j < k → suffCand base j ∈ taken) →
      suffixLoopProbes taken base num fuel = k - num + 1 := by
  induction fuel with
  | zero =>
    intro num k h1 h2 _ _
    omega
  | succ fuel ih =>
    intro num k h1 h2 hfree hbusy
    rw [suffixLoopProbes]
    by_cases hc : suffCand base num ∈ taken
    · rw [if_pos hc]
      have hne : num ≠ k := by
        intro e
        exact hfree (e ▸ hc)
      rw [ih (num + 1) k (by omega) (by omega) hfree
        (fun j hj1 hj2 => hbusy j (by omega) hj2)]
      omega
    · rw [if_neg hc]
      have hk : k = num := by
        rcases Nat.eq_or_lt_of_le h1 with h | h
        · omega
        · exact absurd (hbusy num (Nat.le_refl _) h) hc
      omega

/-- Pigeonhole: when the base slug itself is taken, some suffixed candidate
`base-(1+j)` with `j < taken.length` is free, because the candidates are
pairwise distinct and all distinct from `base`. -/
theorem exists_free_cand (taken : List String) (base : String)
    (hb : base ∈ taken) :
    ∃ j, j < taken.length ∧ suffCand base (1 + j) ∉ taken := by
  by_contra hcon
  push_neg at hcon
  have hsub : base :: ((List.range taken.length).map fun j => suffCand base (1 + j)) ⊆ taken := by
    intro s hs
    rcases List.mem_cons.mp hs with h | h
    · exact h ▸ hb
    · rw [List.mem_map] at h
      obtain ⟨j, hj, rfl⟩ := h
      exact hcon j (List.mem_range.mp hj)
  have hnd : (base :: ((List.range taken.length).map fun j => suffCand base (1 + j))).Nodup := by
    refine List.nodup_cons.mpr ⟨?_, ?_⟩
    · intro hmem
      rw [List.mem_map] at hmem
      obtain ⟨j, _, hj⟩ := hmem
      exact suffCand_ne_base base (1 + j) hj
    · refine (List.nodup_range _).map ?_
      intro a b hab
      have := suffCand_inj hab
      omega
  have hlen := (List.subperm_of_subset hnd hsub).length_le
  simp at hlen

/-- Full functional characterisation of `_generate_unique_slug`: if the base
slug is free it is returned after a single probe; otherwise the result is
`base-k` for the least `k ≥ 1` whose candidate is free, `k` is at most the
number of probed records, and the loop makes `k + 1` probes in total. -/
theorem generate_unique_slug_spec (taken : List String) (title : String) :
    (strTake (slugify title) SLUG_MAX_LENGTH ∉ taken →
      generate_unique_slug taken title = strTake (slugify title) SLUG_MAX_LENGTH ∧
      slugProbes taken title = 1) ∧
    (strTake (slugify title) SLUG_MAX_LENGTH ∈ taken →
      ∃ k, 1 ≤ k ∧ k ≤ taken.length ∧
        generate_unique_slug taken title
          = suffCand (strTake (slugify title) SLUG_MAX_LENGTH) k ∧
        suffCand (strTake (slugify title) SLUG_MAX_LENGTH) k ∉ taken ∧
        (∀ j, 1 ≤ j → j < k →
          suffCand (strTake (slugify title) SLUG_MAX_LENGTH) j ∈ taken) ∧
        slugProbes taken title = k + 1) := by
  constructor
  · intro hfree
    rw [generate_unique_slug, slugProbes]
    simp only [if_neg hfree]
    exact ⟨trivial, trivial⟩
  · intro hb
    set base := strTake (slugify title) SLUG_MAX_LENGTH with hbase
    have hex : ∃ j, suffCand base (1 + j) ∉ taken := by
      obtain ⟨j, _, hj⟩ := exists_free_cand taken base hb
      exact ⟨j, hj⟩
    set j₀ := Nat.find hex with hj₀
    have hj₀free : suffCand base (1 + j₀) ∉ taken := Nat.find_spec hex
    have hj₀min : ∀ i, i < j₀ → suffCand base (1 + i) ∈ taken := by
      intro i hi
      have := Nat.find_min hex hi
      simpa using this
    have hj₀le : j₀ < taken.length := by
      obtain ⟨j, hjlen, hjfree⟩ := exists_free_cand taken base hb
      exact Nat.lt_of_le_of_lt (Nat.find_min' hex hjfree) hjlen
    refine ⟨1 + j₀, by omega, by omega, ?_, hj₀free, ?_, ?_⟩
    · rw [generate_unique_slug, if_pos hb]
      exact suffixLoop_eq taken base (taken.length + 1) 1 (1 + j₀)
        (by omega) (by omega) hj₀free
        (fun j hj1 hj2 => by
          have : j - 1 < j₀ := by omega
          have := hj₀min (j - 1) this
          have hj : 1 + (j - 1) = j := by omega
          rwa [hj] at this)
    · intro j hj1 hj2
      have : j - 1 < j₀ := by omega
      have hmem := hj₀min (j - 1) this
      have hj : 1 + (j - 1) = j := by omega
      rwa [hj] at hmem
    · rw [slugProbes, if_pos hb]
      rw [suffixLoopProbes_eq taken base (taken.length + 1) 1 (1 + j₀)
        (by omega) (by omega) hj₀free
        (fun j hj1 hj2 => by
          have : j - 1 < j₀ := by omega
          have := hj₀min (j - 1) this
          have hj : 1 + (j - 1) = j := by omega
          rwa [hj] at this)]
      omega

/-- The resolved slug is never a probed (taken) slug. -/
theorem generate_unique_slug_not_taken (taken : List String) (title : String) :
    generate_unique_slug taken title ∉ taken := by
  obtain ⟨hfree, hbusy⟩ := generate_unique_slug_spec taken title
  by_cases hb : strTake (slugify title) SLUG_MAX_LENGTH ∈ taken
  · obtain ⟨k, _, _, heq, hnot, _, _⟩ := hbusy hb
    rw [heq]
    exact hnot
  · rw [(hfree hb).1]
    exact hb

/-! ### Lemmas: the slugifier -/

theorem toNat_ofNat_valid {n : Nat} (h : n < 55296) : (Char.ofNat n).toNat = n := by
  have hv : n.isValidChar := Or.inl h
  rw [Char.ofNat, dif_pos hv]
  rfl

/-- `Char.toLower` never produces an uppercase ASCII letter. -/
theorem toLower_not_upper (c : Char) :
    ¬(65 ≤ c.toLower.toNat ∧ c.toLower.toNat ≤ 90) := by
  rintro ⟨h1, h2⟩
  rw [Char.toLower] at h1 h2
  by_cases h : c.toNat ≥ 65 ∧ c.toNat ≤ 90
  · rw [if_pos h] at h1 h2
    rw [toNat_ofNat_valid (by omega)] at h1 h2
    omega
  · rw [if_neg h] at h1 h2
    push_neg at h
    omega

theorem mem_collapseAux {c : Char} : ∀ (b : Bool) (l : List Char),
    c ∈ collapseAux b l → c = '-' ∨ (c ∈ l ∧ isSepChar c = false) := by
  intro b l
  induction l generalizing b with
  | nil => intro h; cases b <;> simp [collapseAux] at h
  | cons d ds ih =>
    intro h
    rw [collapseAux] at h
    by_cases hd : isSepChar d
    · rw [if_pos hd] at h
      cases b with
      | true =>
        simp only [if_pos rfl] at h
        rcases ih true h with h1 | ⟨h2, h3⟩
        · exact Or.inl h1
        · exact Or.inr ⟨List.mem_cons_of_mem _ h2, h3⟩
      | false =>
        simp only [Bool.false_eq_true, if_false] at h
        rcases List.mem_cons.mp h with h1 | h1
        · exact Or.inl h1
        · rcases ih true h1 with h2 | ⟨h2, h3⟩
          · exact Or.inl h2
          · exact Or.inr ⟨List.mem_cons_of_mem _ h2, h3⟩
    · rw [if_neg hd] at h
      rcases List.mem_cons.mp h with h1 | h1
      · subst h1
        exact Or.inr ⟨List.mem_cons_self _ _, by simpa using hd⟩
      · rcases ih false h1 with h2 | ⟨h2, h3⟩
        · exact Or.inl h2
        · exact Or.inr ⟨List.mem_cons_of_mem _ h2, h3⟩

theorem mem_stripBoth {p : Char → Bool} {c : Char} {l : List Char}
    (h : c ∈ stripBoth p l) : c ∈ l := by
  rw [stripBoth, List.mem_reverse] at h
  have h1 := (List.dropWhile_sublist p).subset h
  rw [List.mem_reverse] at h1
  exact (List.dropWhile_sublist p).subset h1

theorem head?_dropWhile_false {p : Char → Bool} :
    ∀ {l : List Char} {c : Char}, (l.dropWhile p).head? = some c → p c = false := by
  intro l
  induction l with
  | nil => intro c h; simp at h
  | cons d ds ih =>
    intro c h
    rw [List.dropWhile_cons] at h
    by_cases hd : p d
    · simp only [hd, if_pos rfl] at h
      exact ih h
    · simp only [hd, Bool.false_eq_true, if_false, List.head?_cons, Option.some.injEq] at h
      subst h
      simpa using hd

theorem stripBoth_getLast? {p : Char → Bool} {l : List Char} {c : Char}
    (h : (stripBoth p l).getLast? = some c) : p c = false := by
  rw [stripBoth, List.getLast?_reverse] at h
  exact head?_dropWhile_false h

theorem stripBoth_head? {p : Char → Bool} {l : List Char} {c : Char}
    (h : (stripBoth p l).head? = some c) : p c = false := by
  rw [stripBoth, List.head?_reverse] at h
  set Y := (l.dropWhile p).reverse with hY
  have hne : Y.dropWhile p ≠ [] := by
    intro hnil
    rw [hnil] at h
    simp at h
  have hsuffix := List.dropWhile_suffix (l := Y) p
  obtain ⟨t, ht⟩ := hsuffix
  have hlast : Y.getLast? = some c := by
    rw [← ht, List.getLast?_append_of_ne_nil t hne]
    exact h
  rw [hY, List.getLast?_reverse] at hlast
  exact head?_dropWhile_false hlast

/-- Every character of `slugify s` is a lowercase letter, a digit, an
underscore, or a hyphen. -/
theorem slugify_chars (s : String) :
    ∀ c ∈ (slugify s).data, ('a' ≤ c ∧ c ≤ 'z') ∨ ('0' ≤ c ∧ c ≤ '9') ∨ c = '_' ∨ c = '-' := by
  intro c hc
  rw [slugify] at hc
  have h1 : c ∈ collapseSeps (((s.data.filter (fun c => c.toNat < 128)).map Char.toLower).filter
      (fun c => isWordChar c || isSpaceChar c || c = '-')) := mem_stripBoth hc
  rcases mem_collapseAux false _ h1 with h2 | ⟨h2, h3⟩
  · exact Or.inr (Or.inr (Or.inr h2))
  · have h4 := List.of_mem_filter h2
    have h5 := List.mem_filter.mp h2 |>.1
    rw [List.mem_map] at h5
    obtain ⟨d, hd, rfl⟩ := h5
    rw [isSepChar] at h3
    simp only [Bool.or_eq_false_iff, decide_eq_false_iff_not] at h3
    simp only [Bool.or_eq_true, decide_eq_true_eq] at h4
    rcases h4 with (h4 | h4) | h4
    · rw [isWordChar] at h4
      simp only [Bool.or_eq_true, Bool.and_eq_true, decide_eq_true_eq] at h4
      rcases h4 with ((⟨hl, hr⟩ | ⟨hl, hr⟩) | ⟨hl, hr⟩) | h4
      · exact Or.inl ⟨hl, hr⟩
      · exact absurd ⟨hl, hr⟩ (toLower_not_upper d)
      · exact Or.inr (Or.inl ⟨hl, hr⟩)
      · exact Or.inr (Or.inr (Or.inl h4))
    · rw [h3.1] at h4
      exact absurd h4 (by simp)
    · exact Or.inr (Or.inr (Or.inr (by simpa using h4)))

/-- `slugify` output does not begin with a hyphen or an underscore. -/
theorem slugify_head (s : String) {c : Char} (h : (slugify s).data.head? = some c) :
    c ≠ '-' ∧ c ≠ '_' := by
  rw [slugify] at h
  have h1 := stripBoth_head? (p := isStripChar) h
  rw [isStripChar] at h1
  simp only [Bool.or_eq_false_iff, decide_eq_false_iff_not] at h1
  exact h1

/-- `slugify` output does not end with a hyphen or an underscore. -/
theorem slugify_getLast (s : String) {c : Char} (h : (slugify s).data.getLast? = some c) :
    c ≠ '-' ∧ c ≠ '_' := by
  rw [slugify] at h
  have h1 := stripBoth_getLast? (p := isStripChar) h
  rw [isStripChar] at h1
  simp only [Bool.or_eq_false_iff, decide_eq_false_iff_not] at h1
  exact h1

/-! ### Lemmas: the serializer operations -/

theorem mem_activeSlugs {recs : List CommentRec} {s : String} :
    s ∈ activeSlugs recs ↔ ∃ r ∈ recs, r.isActive = true ∧ r.slug = s := by
  rw [activeSlugs]
  constructor
  · intro h
    rw [List.mem_map] at h
    obtain ⟨r, hr, rfl⟩ := h
    rw [List.mem_filter] at hr
    exact ⟨r, hr.1, by simpa using hr.2, rfl⟩
  · rintro ⟨r, hr, hact, rfl⟩
    rw [List.mem_map]
    exact ⟨r, List.mem_filter.mpr ⟨hr, by simpa using hact⟩, rfl⟩

theorem mem_publishedSlugs {recs : List PostRec} {s : String} :
    s ∈ publishedSlugs recs ↔
      ∃ r ∈ recs, r.status = STATUS_PUBLISH ∧ r.isActive = true ∧ r.slug = s := by
  rw [publishedSlugs]
  constructor
  · intro h
    rw [List.mem_map] at h
    obtain ⟨r, hr, rfl⟩ := h
    rw [List.mem_filter] at hr
    have h2 := hr.2
    simp only [Bool.and_eq_true, beq_iff_eq] at h2
    exact ⟨r, hr.1, h2.1, h2.2, rfl⟩
  · rintro ⟨r, hr, hst, hact, rfl⟩
    rw [List.mem_map]
    refine ⟨r, List.mem_filter.mpr ⟨hr, ?_⟩, rfl⟩
    simp only [Bool.and_eq_true, beq_iff_eq]
    exact ⟨hst, hact⟩

theorem mem_catSlugs {recs : List CatRec} {s : String} :
    s ∈ catSlugs recs ↔ ∃ r ∈ recs, r.slug = s := by
  rw [catSlugs, List.mem_map]

/-- Successful comment creation: shape of the result and provenance of the
stored slug. -/
theorem commentCreate_ok {db db2 : CommentDB} {inp : CommentInput}
    (h : commentCreate db inp = .ok db2) :
    ∃ slug,
      db2 = ⟨db.nextId + 1,
        ⟨db.nextId, commentEffTitle inp (inp.content.getD ""), inp.content.getD "",
          slug, true⟩ :: db.recs⟩ ∧
      slug ∉ activeSlugs db.recs ∧
      (optFalsy inp.slug = true →
        slug = generate_unique_slug (activeSlugs db.recs)
          (commentEffTitle inp (inp.content.getD ""))) ∧
      (∀ s, inp.slug = some s → s ≠ "" → slug = s) := by
  rw [commentCreate] at h
  split at h
  · exact absurd h (by simp)
  · split at h
    · exact absurd h (by simp)
    · split at h
      · exact absurd h (by simp)
      · rename_i hfields hconf hcontent
        refine ⟨_, by injection h with h2; rw [← h2], ?_, ?_, ?_⟩
        · by_cases hf : optFalsy inp.slug = true
          · rw [if_pos hf]
            exact generate_unique_slug_not_taken _ _
          · rw [if_neg hf]
            match hs : inp.slug with
            | none => rw [hs] at hf; exact absurd rfl hf
            | some s =>
              rw [hs] at hf hconf
              simp only [Option.any_some, Bool.and_eq_true, bne_iff_ne, ne_eq,
                decide_eq_true_eq, not_and] at hconf
              simp only [optFalsy, beq_iff_eq] at hf
              simp only [Option.getD_some]
              exact hconf hf
        · intro hf
          rw [if_pos hf]
        · intro s hs hsne
          have hf : optFalsy inp.slug = false := by
            rw [hs]
            simp only [optFalsy, beq_eq_false_iff_ne, ne_eq]
            exact hsne
          rw [if_neg (by rw [hf]; exact Bool.false_ne_true), hs]
          rfl

/-- Successful comment update: shape of the result. -/
theorem commentUpdate_ok {db db2 : CommentDB} {i : Nat} {inp : CommentInput}
    (h : commentUpdate db i inp = .ok db2) :
    db2 = ⟨db.nextId, db.recs.map (fun r =>
      if r.id = i then
        { r with
          title := commentEffTitle inp (inp.content.getD ""),
          content := inp.content.getD "",
          slug := generate_unique_slug (activeSlugs db.recs)
            (commentEffTitle inp (inp.content.getD "")) }
      else r)⟩ := by
  rw [commentUpdate] at h
  split at h
  · exact absurd h (by simp)
  · split at h
    · exact absurd h (by simp)
    · split at h
      · exact absurd h (by simp)
      · injection h with h2
        rw [← h2]

/-- Successful category model save: shape of the stored row and freedom of
its slug among the other rows. -/
theorem categorySave_ok {others : List CatRec} {r r2 : CatRec}
    (h : categorySave others r = .ok r2) :
    r2 = { r with slug := if r.slug == "" then slugify r.title else r.slug } ∧
    r2.slug ∉ catSlugs others := by
  rw [categorySave] at h
  by_cases hb : (r.slug == "") = true
  · rw [hb, if_pos rfl] at h
    rw [hb, if_pos rfl]
    split at h
    · exact absurd h (by simp)
    · rename_i hnot
      injection h with h2
      subst h2
      exact ⟨rfl, hnot⟩
  · have hb2 : (r.slug == "") = false := by
      rwa [Bool.not_eq_true] at hb
    rw [hb2, if_neg Bool.false_ne_true] at h
    rw [hb2, if_neg Bool.false_ne_true]
    split at h
    · exact absurd h (by simp)
    · rename_i hnot
      injection h with h2
      subst h2
      exact ⟨rfl, hnot⟩

/-- Successful category creation: shape of the result and provenance of the
stored slug. -/
theorem categoryCreate_ok {db db2 : CatDB} {inp : CatInput}
    (h : categoryCreate db inp = .ok db2) :
    ∃ t0 slug, inp.title = some t0 ∧
      db2 = ⟨db.nextId + 1, ⟨db.nextId, pyStrip t0, slug, true⟩ :: db.recs⟩ ∧
      slug ∉ catSlugs db.recs ∧
      (∀ s, inp.slug = some s → s ≠ "" → slug = s) := by
  rw [categoryCreate] at h
  split at h
  · exact absurd h (by simp)
  · split at h
    · exact absurd h (by simp)
    · rename_i t0 heq
      split at h
      · exact absurd h (by simp)
      · split at h
        · exact absurd h (by simp)
        · split at h
          · exact absurd h (by simp)
          · split at h
            · exact absurd h (by simp)
            · rename_i r hsave
              obtain ⟨hr2, hfree⟩ := categorySave_ok hsave
              injection h with h2
              refine ⟨t0, r.slug, heq, ?_, hfree, ?_⟩
              · rw [← h2, hr2]
              · intro s hs hsne
                have hof : optFalsy inp.slug = false := by
                  rw [hs]
                  simp only [optFalsy]
                  exact beq_eq_false_iff_ne.mpr hsne
                have hcs : catCreateSlug inp (pyStrip t0) = s := by
                  rw [catCreateSlug, if_neg (by rw [hof]; exact Bool.false_ne_true), hs]
                  rfl
                simp [hr2, hcs, hsne]

/-- Successful category update: either a missing row (no change) or a row
replacement whose stored slug passed the unique constraint. -/
theorem categoryUpdate_ok {db db2 : CatDB} {i : Nat} {inp : CatInput}
    (h : categoryUpdate db i inp = .ok db2) :
    (db2 = db ∧ db.recs.find? (fun r => r.id == i) = none) ∨
    ∃ r0 r2, db.recs.find? (fun r => r.id == i) = some r0 ∧
      categorySave (db.recs.filter (fun r => r.id ≠ i))
        { r0 with
          title := (catTitleAttr inp).getD r0.title,
          slug := (match catSlugAttr inp with | some s => s | none => r0.slug) } = .ok r2 ∧
      db2 = ⟨db.nextId, db.recs.map (fun r => if r.id = i then r2 else r)⟩ := by
  rw [categoryUpdate] at h
  split at h
  · exact absurd h (by simp)
  · split at h
    · exact absurd h (by simp)
    · split at h
      · exact absurd h (by simp)
      · split at h
        · exact absurd h (by simp)
        · split at h
          · rename_i hfind
            injection h with h2
            exact Or.inl ⟨h2.symm, hfind⟩
          · rename_i hfields htitle hconf hval r0 hfind
            split at h
            · exact absurd h (by simp)
            · rename_i r2 hsave
              injection h with h2
              exact Or.inr ⟨r0, r2, hfind, hsave, h2.symm⟩

/-- Successful post store write: the row is stored unchanged, and a
published active row's slug was free among the other published active
rows. -/
theorem postStoreWrite_ok {others : List PostRec} {r r2 : PostRec}
    (h : postStoreWrite others r = .ok r2) :
    r2 = r ∧ (r.status = STATUS_PUBLISH → r.isActive = true →
      r.slug ∉ publishedSlugs others) := by
  rw [postStoreWrite] at h
  split at h
  · exact absurd h (by simp)
  · rename_i hcond
    injection h with h2
    subst h2
    refine ⟨rfl, ?_⟩
    intro hst hact hmem
    exact hcond (by simp [hst, hact, hmem])

/-- A failing post store write reports only an integrity error. -/
theorem postStoreWrite_error {others : List PostRec} {r : PostRec} {e : VErr}
    (h : postStoreWrite others r = .error e) : e = .integrityError := by
  rw [postStoreWrite] at h
  split at h
  · injection h with h2
    exact h2.symm
  · exact absurd h (by simp)

/-- Successful post creation: shape of the result; when an explicit
non-blank slug was supplied it was free among published posts, a supplied
title had no exact duplicate, and a published new row's slug passed the
storage-layer constraint. -/
theorem postCreate_ok {db db2 : PostDB} {inp : PostInput}
    (h : postCreate db inp = .ok db2) :
    db2 = ⟨db.nextId + 1,
      ⟨db.nextId, inp.title.getD "",
        pyLower (if (inp.slug.getD "") == "" then slugify (inp.title.getD "")
                 else inp.slug.getD ""),
        inp.status.getD postDefaultStatus, true⟩ :: db.recs⟩ ∧
    (∀ s, inp.slug = some s → s ≠ "" → s ∉ publishedSlugs db.recs) ∧
    (∀ t, inp.title = some t → db.recs.any (fun r => r.title == t) = false) ∧
    (inp.status.getD postDefaultStatus = STATUS_PUBLISH →
      pyLower (if (inp.slug.getD "") == "" then slugify (inp.title.getD "")
               else inp.slug.getD "") ∉ publishedSlugs db.recs) := by
  rw [postCreate] at h
  split at h
  · exact absurd h (by simp)
  · split at h
    · exact absurd h (by simp)
    · split at h
      · exact absurd h (by simp)
      · rename_i hfields htitle hconf
        split at h
        · exact absurd h (by simp)
        · rename_i r hsw
          obtain ⟨hr2, hguard⟩ := postStoreWrite_ok hsw
          subst hr2
          injection h with h2
          refine ⟨h2.symm, ?_, ?_, ?_⟩
          · intro s hs hsne
            rw [hs] at hconf
            simp only [Option.any_some, Bool.and_eq_true, bne_iff_ne, ne_eq,
              decide_eq_true_eq, not_and] at hconf
            exact hconf hsne
          · intro t ht
            rw [ht] at htitle
            simp only [Option.any_some] at htitle
            exact Bool.eq_false_iff.mpr htitle
          · intro hst
            exact hguard hst rfl

/-- Successful post update: either a missing row (no change) or a row
replacement that passed the storage-layer constraint. -/
theorem postUpdate_ok {db db2 : PostDB} {i : Nat} {inp : PostInput}
    (h : postUpdate db i inp = .ok db2) :
    (db2 = db ∧ db.recs.find? (fun r => r.id == i) = none) ∨
    ∃ r0, db.recs.find? (fun r => r.id == i) = some r0 ∧
      postStoreWrite (db.recs.filter (fun r => r.id ≠ i)) (postUpdatedRow inp r0)
        = .ok (postUpdatedRow inp r0) ∧
      db2 = ⟨db.nextId, db.recs.map (fun r =>
        if r.id = i then postUpdatedRow inp r0 else r)⟩ := by
  rw [postUpdate] at h
  split at h
  · exact absurd h (by simp)
  · split at h
    · exact absurd h (by simp)
    · split at h
      · exact absurd h (by simp)
      · split at h
        · rename_i hfind
          injection h with h2
          exact Or.inl ⟨h2.symm, hfind⟩
        · rename_i r0 hfind
          split at h
          · exact absurd h (by simp)
          · rename_i r2 hsw
            obtain ⟨hr2, -⟩ := postStoreWrite_ok hsw
            subst hr2
            injection h with h2
            exact Or.inr ⟨r0, hfind, hsw, h2.symm⟩

/-! ### Lemmas: the uniqueness invariant -/

theorem not_mem_activeSlugs {recs : List CommentRec} {s : String}
    (h : s ∉ activeSlugs recs) : ∀ r ∈ recs, r.isActive = true → r.slug ≠ s := by
  intro r hr hact hslug
  exact h (mem_activeSlugs.mpr ⟨r, hr, hact, hslug⟩)

theorem not_mem_catSlugs {recs : List CatRec} {s : String}
    (h : s ∉ catSlugs recs) : ∀ r ∈ recs, r.slug ≠ s := by
  intro r hr hslug
  exact h (mem_catSlugs.mpr ⟨r, hr, hslug⟩)

/-- Creation preserves well-formedness of the comment collection. -/
theorem commentCreate_wf {db db2 : CommentDB} {inp : CommentInput}
    (hwf : commentWF db) (h : commentCreate db inp = .ok db2) : commentWF db2 := by
  obtain ⟨slug, hdb2, hfree, -, -⟩ := commentCreate_ok h
  obtain ⟨hlt, hnd, hok⟩ := hwf
  subst hdb2
  refine ⟨?_, ?_, ?_⟩
  · intro r hr
    rcases List.mem_cons.mp hr with rfl | hr
    · exact Nat.lt_succ_self _
    · exact Nat.lt_succ_of_lt (hlt r hr)
  · rw [List.map_cons]
    refine List.nodup_cons.mpr ⟨?_, hnd⟩
    intro hmem
    rw [List.mem_map] at hmem
    obtain ⟨r, hr, hid⟩ := hmem
    exact absurd hid (Nat.ne_of_lt (hlt r hr))
  · rw [commentSlugsOK, List.pairwise_cons]
    refine ⟨?_, hok⟩
    intro r hr hact1 hact2 hslugeq
    exact not_mem_activeSlugs hfree r hr (by simpa using hact2) hslugeq.symm

/-- Update preserves well-formedness of the comment collection. -/
theorem commentUpdate_wf {db db2 : CommentDB} {i : Nat} {inp : CommentInput}
    (hwf : commentWF db) (h : commentUpdate db i inp = .ok db2) : commentWF db2 := by
  have hdb2 := commentUpdate_ok h
  obtain ⟨hlt, hnd, hok⟩ := hwf
  subst hdb2
  set g := generate_unique_slug (activeSlugs db.recs)
    (commentEffTitle inp (inp.content.getD "")) with hg
  set u := fun (r : CommentRec) =>
    if r.id = i then
      { r with
        title := commentEffTitle inp (inp.content.getD ""),
        content := inp.content.getD "",
        slug := g }
    else r with hu
  have hgen : g ∉ activeSlugs db.recs := generate_unique_slug_not_taken _ _
  have hid : ∀ (r : CommentRec), (u r).id = r.id := by
    intro r
    simp only [hu]
    split <;> rfl
  have hact : ∀ (r : CommentRec), (u r).isActive = r.isActive := by
    intro r
    simp only [hu]
    split <;> rfl
  have hslug : ∀ (r : CommentRec), (u r).slug = if r.id = i then g else r.slug := by
    intro r
    simp only [hu]
    split <;> simp_all
  have hpairid : db.recs.Pairwise (fun a b => a.id ≠ b.id) := List.pairwise_map.mp hnd
  refine ⟨?_, ?_, ?_⟩
  · intro r hr
    rw [List.mem_map] at hr
    obtain ⟨r0, hr0, rfl⟩ := hr
    rw [hid]
    exact hlt r0 hr0
  · rw [List.map_map]
    have hmap : db.recs.map ((fun r => r.id) ∘ u) = db.recs.map (fun r => r.id) :=
      List.map_congr_left (fun r _ => hid r)
    rw [hmap]
    exact hnd
  · rw [commentSlugsOK, List.pairwise_map]
    refine (hok.and hpairid).imp_of_mem ?_
    intro a b ha hb hR
    obtain ⟨hRab, hidab⟩ := hR
    rw [hact, hact]
    intro hactA hactB
    rw [hslug, hslug]
    by_cases hai : a.id = i <;> by_cases hbi : b.id = i
    · exact absurd (hai.trans hbi.symm) hidab
    · rw [if_pos hai, if_neg hbi]
      exact fun hslugeq => not_mem_activeSlugs hgen b hb hactB hslugeq.symm
    · rw [if_neg hai, if_pos hbi]
      exact fun hslugeq => not_mem_activeSlugs hgen a ha hactA hslugeq
    · rw [if_neg hai, if_neg hbi]
      exact hRab hactA hactB

/-- Creation preserves well-formedness of the category collection. -/
theorem categoryCreate_wf {db db2 : CatDB} {inp : CatInput}
    (hwf : catWF db) (h : categoryCreate db inp = .ok db2) : catWF db2 := by
  obtain ⟨t0, slug, -, hdb2, hfree, -⟩ := categoryCreate_ok h
  obtain ⟨hlt, hnd, hok⟩ := hwf
  subst hdb2
  refine ⟨?_, ?_, ?_⟩
  · intro r hr
    rcases List.mem_cons.mp hr with rfl | hr
    · exact Nat.lt_succ_self _
    · exact Nat.lt_succ_of_lt (hlt r hr)
  · rw [List.map_cons]
    refine List.nodup_cons.mpr ⟨?_, hnd⟩
    intro hmem
    rw [List.mem_map] at hmem
    obtain ⟨r, hr, hid⟩ := hmem
    exact absurd hid (Nat.ne_of_lt (hlt r hr))
  · rw [catSlugsOK, List.pairwise_cons]
    refine ⟨?_, hok⟩
    intro r hr hact1 hact2 hslugeq
    exact not_mem_catSlugs hfree r hr hslugeq.symm

/-- Update preserves well-formedness of the category collection. -/
theorem categoryUpdate_wf {db db2 : CatDB} {i : Nat} {inp : CatInput}
    (hwf : catWF db) (h : categoryUpdate db i inp = .ok db2) : catWF db2 := by
  rcases categoryUpdate_ok h with ⟨rfl, -⟩ | ⟨r0, r2, hfind, hsave, hdb2⟩
  · exact hwf
  · obtain ⟨hlt, hnd, hok⟩ := hwf
    obtain ⟨hr2eq, hfree⟩ := categorySave_ok hsave
    have hr0i : r0.id = i := by
      have := List.find?_some hfind
      simpa using this
    have hr2id : r2.id = i := by
      rw [hr2eq]
      exact hr0i
    have hr0mem : r0 ∈ db.recs := List.mem_of_find?_eq_some hfind
    subst hdb2
    set u := fun (r : CatRec) => if r.id = i then r2 else r with hu
    have hid : ∀ (r : CatRec), (u r).id = r.id := by
      intro r
      simp only [hu]
      split
      · rename_i hc
        rw [hr2id, hc]
      · rfl
    have hr0lt : r2.id < db.nextId := by
      rw [hr2id, ← hr0i]
      exact hlt r0 hr0mem
    have hpairid : db.recs.Pairwise (fun a b => a.id ≠ b.id) := List.pairwise_map.mp hnd
    have hfree2 : ∀ r ∈ db.recs, r.id ≠ i → r.slug ≠ r2.slug := by
      intro r hr hri hslugeq
      refine not_mem_catSlugs hfree r ?_ hslugeq
      rw [List.mem_filter]
      exact ⟨hr, by simpa using hri⟩
    refine ⟨?_, ?_, ?_⟩
    · intro r hr
      rw [List.mem_map] at hr
      obtain ⟨r1, hr1, rfl⟩ := hr
      rw [hid]
      exact hlt r1 hr1
    · rw [List.map_map]
      have hmap : db.recs.map ((fun r => r.id) ∘ u) = db.recs.map (fun r => r.id) :=
        List.map_congr_left (fun r _ => hid r)
      rw [hmap]
      exact hnd
    · rw [catSlugsOK, List.pairwise_map]
      refine (hok.and hpairid).imp_of_mem ?_
      intro a b ha hb hR
      obtain ⟨hRab, hidab⟩ := hR
      simp only [hu]
      by_cases hai : a.id = i <;> by_cases hbi : b.id = i
      · exact absurd (hai.trans hbi.symm) hidab
      · rw [if_pos hai, if_neg hbi]
        exact fun _ _ hslugeq => hfree2 b hb hbi hslugeq.symm
      · rw [if_neg hai, if_pos hbi]
        exact fun _ _ hslugeq => hfree2 a ha hai hslugeq
      · rw [if_neg hai, if_neg hbi]
        exact hRab

/-- Creation preserves well-formedness of the post collection. -/
theorem postCreate_wf {db db2 : PostDB} {inp : PostInput}
    (hwf : postWF db) (h : postCreate db inp = .ok db2) : postWF db2 := by
  obtain ⟨hdb2, -, -, hguard⟩ := postCreate_ok h
  obtain ⟨hlt, hnd, hok⟩ := hwf
  subst hdb2
  refine ⟨?_, ?_, ?_⟩
  · intro r hr
    rcases List.mem_cons.mp hr with rfl | hr
    · exact Nat.lt_succ_self _
    · exact Nat.lt_succ_of_lt (hlt r hr)
  · rw [List.map_cons]
    refine List.nodup_cons.mpr ⟨?_, hnd⟩
    intro hmem
    rw [List.mem_map] at hmem
    obtain ⟨r, hr, hid⟩ := hmem
    exact absurd hid (Nat.ne_of_lt (hlt r hr))
  · rw [postPublishedSlugsOK, List.pairwise_cons]
    refine ⟨?_, hok⟩
    intro r hr hst1 hact1 hst2 hact2 hslugeq
    exact hguard hst1 (mem_publishedSlugs.mpr ⟨r, hr, hst2, hact2, hslugeq.symm⟩)

/-- Update preserves well-formedness of the post collection. -/
theorem postUpdate_wf {db db2 : PostDB} {i : Nat} {inp : PostInput}
    (hwf : postWF db) (h : postUpdate db i inp = .ok db2) : postWF db2 := by
  rcases postUpdate_ok h with ⟨rfl, -⟩ | ⟨r0, hfind, hsw, hdb2⟩
  · exact hwf
  · obtain ⟨hlt, hnd, hok⟩ := hwf
    obtain ⟨-, hguard⟩ := postStoreWrite_ok hsw
    have hr0i : r0.id = i := by
      simpa using List.find?_some hfind
    have hrui : (postUpdatedRow inp r0).id = i := by
      simp only [postUpdatedRow]
      exact hr0i
    have hr0mem : r0 ∈ db.recs := List.mem_of_find?_eq_some hfind
    subst hdb2
    set u := fun (r : PostRec) => if r.id = i then postUpdatedRow inp r0 else r with hu
    have hid : ∀ (r : PostRec), (u r).id = r.id := by
      intro r
      simp only [hu]
      split
      · rename_i hc
        rw [hrui, hc]
      · rfl
    have hpairid : db.recs.Pairwise (fun a b => a.id ≠ b.id) := List.pairwise_map.mp hnd
    have hfree2 : ∀ r ∈ db.recs, r.id ≠ i →
        r.status = STATUS_PUBLISH → r.isActive = true →
        (postUpdatedRow inp r0).status = STATUS_PUBLISH →
        (postUpdatedRow inp r0).isActive = true →
        r.slug ≠ (postUpdatedRow inp r0).slug := by
      intro r hr hri hst hact hst0 hact0 hslugeq
      refine hguard hst0 hact0 ?_
      refine mem_publishedSlugs.mpr ⟨r, ?_, hst, hact, hslugeq⟩
      rw [List.mem_filter]
      exact ⟨hr, by simpa using hri⟩
    refine ⟨?_, ?_, ?_⟩
    · intro r hr
      rw [List.mem_map] at hr
      obtain ⟨r1, hr1, rfl⟩ := hr
      rw [hid]
      exact hlt r1 hr1
    · rw [List.map_map]
      have hmap : db.recs.map ((fun r => r.id) ∘ u) = db.recs.map (fun r => r.id) :=
        List.map_congr_left (fun r _ => hid r)
      rw [hmap]
      exact hnd
    · rw [postPublishedSlugsOK, List.pairwise_map]
      refine (hok.and hpairid).imp_of_mem ?_
      intro a b ha hb hR
      obtain ⟨hRab, hidab⟩ := hR
      simp only [hu]
      by_cases hai : a.id = i <;> by_cases hbi : b.id = i
      · exact absurd (hai.trans hbi.symm) hidab
      · rw [if_pos hai, if_neg hbi]
        exact fun hst0 hact0 hst hact hslugeq =>
          hfree2 b hb hbi hst hact hst0 hact0 hslugeq.symm
      · rw [if_neg hai, if_pos hbi]
        exact fun hst hact hst0 hact0 =>
          hfree2 a ha hai hst hact hst0 hact0
      · rw [if_neg hai, if_neg hbi]
        exact hRab

/-- The empty comment collection is well-formed. -/
theorem commentEmpty_wf : commentWF commentEmpty := by
  refine ⟨?_, ?_, ?_⟩ <;> simp [commentEmpty, commentSlugsOK]

/-- The empty category collection is well-formed. -/
theorem catEmpty_wf : catWF catEmpty := by
  refine ⟨?_, ?_, ?_⟩ <;> simp [catEmpty, catSlugsOK]

/-- One comment operation preserves well-formedness. -/
theorem commentStep_wf {db : CommentDB} (hwf : commentWF db) (op : CommentOp) :
    commentWF (commentStep db op) := by
  cases op with
  | create inp =>
    rw [commentStep]
    split
    · rename_i db2 heq
      exact commentCreate_wf hwf heq
    · exact hwf
  | update i inp =>
    rw [commentStep]
    split
    · rename_i db2 heq
      exact commentUpdate_wf hwf heq
    · exact hwf

/-- One category operation preserves well-formedness. -/
theorem catStep_wf {db : CatDB} (hwf : catWF db) (op : CatOp) :
    catWF (catStep db op) := by
  cases op with
  | create inp =>
    rw [catStep]
    split
    · rename_i db2 heq
      exact categoryCreate_wf hwf heq
    · exact hwf
  | update i inp =>
    rw [catStep]
    split
    · rename_i db2 heq
      exact categoryUpdate_wf hwf heq
    · exact hwf

/-- Any sequence of comment operations preserves well-formedness. -/
theorem commentRun_wf (db : CommentDB) (ops : List CommentOp) (hwf : commentWF db) :
    commentWF (commentRun db ops) := by
  induction ops generalizing db with
  | nil => exact hwf
  | cons op ops ih =>
    rw [commentRun, List.foldl_cons]
    exact ih _ (commentStep_wf hwf op)

/-- Any sequence of category operations preserves well-formedness. -/
theorem catRun_wf (db : CatDB) (ops : List CatOp) (hwf : catWF db) :
    catWF (catRun db ops) := by
  induction ops generalizing db with
  | nil => exact hwf
  | cons op ops ih =>
    rw [catRun, List.foldl_cons]
    exact ih _ (catStep_wf hwf op)

/-- The empty post collection is well-formed. -/
theorem postEmpty_wf : postWF postEmpty := by
  refine ⟨?_, ?_, ?_⟩ <;> simp [postEmpty, postPublishedSlugsOK]

/-- One post operation preserves well-formedness. -/
theorem postStep_wf {db : PostDB} (hwf : postWF db) (op : PostOp) :
    postWF (postStep db op) := by
  cases op with
  | create inp =>
    rw [postStep]
    split
    · rename_i db2 heq
      exact postCreate_wf hwf heq
    · exact hwf
  | update i inp =>
    rw [postStep]
    split
    · rename_i db2 heq
      exact postUpdate_wf hwf heq
    · exact hwf

/-- Any sequence of post operations preserves well-formedness. -/
theorem postRun_wf (db : PostDB) (ops : List PostOp) (hwf : postWF db) :
    postWF (postRun db ops) := by
  induction ops generalizing db with
  | nil => exact hwf
  | cons op ops ih =>
    rw [postRun, List.foldl_cons]
    exact ih _ (postStep_wf hwf op)

/-! ### Auxiliary lemmas for the claims -/

theorem strTake_eq_self {s : String} {n : Nat} (h : s.length ≤ n) : strTake s n = s := by
  rw [strTake, List.take_of_length_le h]

theorem append_dash_natStr_one (base : String) : base ++ "-" ++ natStr 1 = base ++ "-1" := by
  rw [String.append_assoc]
  congr 1

theorem catSlugAttr_explicit {inp : CatInput} {s : String}
    (hs : inp.slug = some s) (hsne : s ≠ "") : catSlugAttr inp = some s := by
  rw [catSlugAttr, hs]
  cases catTitleAttr inp with
  | none => rfl
  | some t =>
    simp only []
    rw [if_neg (by simpa using hsne)]

theorem catSlugAttr_title_only {inp : CatInput} {t : String}
    (ht : inp.title = some t) (hs : inp.slug = none) :
    catSlugAttr inp = some (slugify (pyStrip t)) := by
  rw [catSlugAttr, hs, catTitleAttr, ht]
  rfl

theorem catSlugAttr_none {inp : CatInput}
    (ht : inp.title = none) (hs : inp.slug = none) : catSlugAttr inp = none := by
  rw [catSlugAttr, hs, catTitleAttr, ht]
  rfl

theorem postSlugAttr_title_only {inp : PostInput} {t : String}
    (ht : inp.title = some t) (hs : inp.slug = none) :
    postSlugAttr inp = some (pyLower (slugify t)) := by
  rw [postSlugAttr, ht, hs]

/-- Rows of a list whose mapped ids are distinct are determined by their id. -/
theorem catRec_eq_of_id_eq {recs : List CatRec}
    (hnd : (recs.map (fun r => r.id)).Nodup) {r r0 : CatRec}
    (hr : r ∈ recs) (hr0 : r0 ∈ recs) (heq : r.id = r0.id) : r = r0 :=
  List.inj_on_of_nodup_map hnd hr hr0 heq

/-! ### Claim theorems -/

/-- C2: for every title whose base slug `slugify(T)` is already taken in a
collection whose stored slugs respect the 100-character bound, resolution
with no explicit slug returns `slugify(T) ++ "-1"` when that candidate is
free, and in general the candidate `slugify(T)-k` for the least `k ≥ 1`
whose candidate is not taken, probing suffixes in ascending order. -/
theorem collision_suffixing_first_free (taken : List String) (title : String)
    (hlen : ∀ s ∈ taken, s.length ≤ SLUG_MAX_LENGTH)
    (htaken : slugify title ∈ taken) :
    ((slugify title ++ "-1") ∉ taken →
      generate_unique_slug taken title = slugify title ++ "-1") ∧
    (∃ k, 1 ≤ k ∧
      generate_unique_slug taken title = slugify title ++ "-" ++ natStr k ∧
      (slugify title ++ "-" ++ natStr k) ∉ taken ∧
      (∀ j, 1 ≤ j → j < k → (slugify title ++ "-" ++ natStr j) ∈ taken)) := by
  have hbase : strTake (slugify title) SLUG_MAX_LENGTH = slugify title :=
    strTake_eq_self (hlen _ htaken)
  obtain ⟨k, hk1, hkle, heq, hfree, hmin, -⟩ :=
    (generate_unique_slug_spec taken title).2 (by rw [hbase]; exact htaken)
  rw [hbase] at heq hfree hmin
  simp only [suffCand] at heq hfree hmin
  constructor
  · intro h1free
    have hk : k = 1 := by
      by_contra hne
      have h2 : 1 < k := by omega
      have hmem := hmin 1 (Nat.le_refl 1) h2
      rw [append_dash_natStr_one] at hmem
      exact h1free hmem
    rw [hk] at heq
    rw [heq, append_dash_natStr_one]
  · exact ⟨k, hk1, heq, hfree, hmin⟩

/-- C2 witness: with `hello-world` taken and `hello-world-1` free, the
title `Hello World` resolves to `slugify "Hello World" ++ "-1"`. -/
theorem collision_suffixing_first_free_witness :
    generate_unique_slug ["hello-world"] "Hello World" = slugify "Hello World" ++ "-1" :=
  (collision_suffixing_first_free ["hello-world"] "Hello World" (by decide) (by decide)).1
    (by decide)

/-- C3 counterexample: updating the comment that itself owns the slug
`slugify(title)` does not return `slugify(title)`: the probe does not
exclude the record being updated, so the stored slug becomes `hello-1`. -/
theorem base_fixpoint_self_collision_cex :
    slugify "hello" = "hello" ∧
    commentUpdate ⟨1, [⟨0, "hello", "old content!", "hello", true⟩]⟩ 0
        ⟨some "hello", some "valid content!", none⟩
      = .ok ⟨1, [⟨0, "hello", "valid content!", "hello-1", true⟩]⟩ ∧
    "hello-1" ≠ "hello" := by
  decide

/-- C3 (amended): when no probed (active) record at all — including the
record being updated — owns `slugify(T)`, and `slugify(T)` is within the
100-character bound, resolution with no explicit slug returns exactly
`slugify(T)`. -/
theorem base_fixpoint_when_truly_free (taken : List String) (title : String)
    (hlen : (slugify title).length ≤ SLUG_MAX_LENGTH)
    (hfree : slugify title ∉ taken) :
    generate_unique_slug taken title = slugify title := by
  have hbase : strTake (slugify title) SLUG_MAX_LENGTH = slugify title :=
    strTake_eq_self hlen
  have h := ((generate_unique_slug_spec taken title).1 (by rw [hbase]; exact hfree)).1
  rw [hbase] at h
  exact h

/-- C3 witness: with only `other` taken, `Hello World` resolves to its base
slug `hello-world`. -/
theorem base_fixpoint_when_truly_free_witness :
    generate_unique_slug ["other"] "Hello World" = slugify "Hello World" :=
  base_fixpoint_when_truly_free ["other"] "Hello World" (by decide) (by decide)

/-- C4: at a 120-character title the base slug is truncated to exactly 100
characters, but when that base is taken the returned slug is the truncated
base with `-1` appended, 102 characters long — the final resolved slug
violates the 100-character bound the claim (and the serializer field
declaration) states. -/
theorem suffix_exceeds_max_length_at_failing_input :
    (strTake (slugify (String.mk (List.replicate 120 'a'))) SLUG_MAX_LENGTH).length
        = SLUG_MAX_LENGTH ∧
    generate_unique_slug
        [strTake (slugify (String.mk (List.replicate 120 'a'))) SLUG_MAX_LENGTH]
        (String.mk (List.replicate 120 'a'))
      = strTake (slugify (String.mk (List.replicate 120 'a'))) SLUG_MAX_LENGTH ++ "-1" ∧
    (generate_unique_slug
        [strTake (slugify (String.mk (List.replicate 120 'a'))) SLUG_MAX_LENGTH]
        (String.mk (List.replicate 120 'a'))).length = 102 := by
  decide

/-- C7 counterexample: `slugify` keeps underscores, so its output is not
contained in `[a-z0-9-]`. -/
theorem slugify_underscore_cex :
    slugify "a_b" = "a_b" ∧
    ¬ (∀ c ∈ (slugify "a_b").data,
        ('a' ≤ c ∧ c ≤ 'z') ∨ ('0' ≤ c ∧ c ≤ '9') ∨ c = '-') := by
  decide

/-- C7 (amended): `slugify` output contains only lowercase letters, digits,
underscores and hyphens, neither starts nor ends with a hyphen or an
underscore, maps `"Hello, World!"` to `"hello-world"`, and performs no
truncation itself (a 120-character word stays 120 characters; callers
truncate). -/
theorem slugify_output_characterisation (s : String) :
    (∀ c ∈ (slugify s).data,
      ('a' ≤ c ∧ c ≤ 'z') ∨ ('0' ≤ c ∧ c ≤ '9') ∨ c = '_' ∨ c = '-') ∧
    (∀ c, (slugify s).data.head? = some c → c ≠ '-' ∧ c ≠ '_') ∧
    (∀ c, (slugify s).data.getLast? = some c → c ≠ '-' ∧ c ≠ '_') ∧
    slugify "Hello, World!" = "hello-world" ∧
    (slugify (String.mk (List.replicate 120 'a'))).length = 120 :=
  ⟨slugify_chars s, fun _ h => slugify_head s h, fun _ h => slugify_getLast s h,
    by decide, by decide⟩

/-- C7 witness: the first character of `slugify "Hello, World!"` is in the
permitted alphabet. -/
theorem slugify_output_characterisation_witness :
    ('a' ≤ 'h' ∧ 'h' ≤ 'z') ∨ ('0' ≤ 'h' ∧ 'h' ≤ '9') ∨ 'h' = '_' ∨ 'h' = '-' :=
  (slugify_output_characterisation "Hello, World!").1 'h' (by decide)

/-- C8: the suffix-probing loop always exits with a candidate no probed
record holds, and the number of existence probes is at most the size of the
probed collection plus one. -/
theorem probe_count_and_termination (taken : List String) (title : String) :
    generate_unique_slug taken title ∉ taken ∧
    slugProbes taken title ≤ taken.length + 1 := by
  refine ⟨generate_unique_slug_not_taken taken title, ?_⟩
  by_cases hb : strTake (slugify title) SLUG_MAX_LENGTH ∈ taken
  · obtain ⟨k, hk1, hkle, -, -, -, hpr⟩ := (generate_unique_slug_spec taken title).2 hb
    omega
  · have h := ((generate_unique_slug_spec taken title).1 hb).2
    omega

/-- C8 witness: with one taken slug the probe count is two, within the
bound. -/
theorem probe_count_and_termination_witness :
    generate_unique_slug ["hello-world"] "Hello World" ∉ ["hello-world"] ∧
    slugProbes ["hello-world"] "Hello World" ≤ 2 :=
  probe_count_and_termination ["hello-world"] "Hello World"

/-- C1: after any sequence of create and update serializer operations
starting from the empty collection, no two active records of a collection
share a slug: no two active comments, no two category rows, and no two
published active posts (the collection's active records, the rows
`Post.published` selects; the storage layer, modelled from the spec for
the absent post model, rejects a duplicate write of a published active
row). -/
theorem uniqueness_invariant_all_collections
    (cops : List CommentOp) (kops : List CatOp) (pops : List PostOp) :
    commentSlugsOK (commentRun commentEmpty cops).recs ∧
    catSlugsOK (catRun catEmpty kops).recs ∧
    postPublishedSlugsOK (postRun postEmpty pops).recs :=
  ⟨(commentRun_wf _ cops commentEmpty_wf).2.2, (catRun_wf _ kops catEmpty_wf).2.2,
    (postRun_wf _ pops postEmpty_wf).2.2⟩

/-- C1 witness: concrete histories satisfy the invariant — including the
two posts with distinct titles that slugify identically, where the second
write is rejected by the storage-layer constraint. -/
theorem uniqueness_invariant_all_collections_witness :
    commentSlugsOK (commentRun commentEmpty
      [.create ⟨some "Hello", some "valid content!", none⟩]).recs ∧
    catSlugsOK (catRun catEmpty [.create ⟨some "Hi", none⟩]).recs ∧
    postPublishedSlugsOK (postRun postEmpty
      [.create ⟨some "Hello World", none, some "publish"⟩,
       .create ⟨some "Hello, World!", none, some "publish"⟩]).recs :=
  uniqueness_invariant_all_collections
    [.create ⟨some "Hello", some "valid content!", none⟩]
    [.create ⟨some "Hi", none⟩]
    [.create ⟨some "Hello World", none, some "publish"⟩,
     .create ⟨some "Hello, World!", none, some "publish"⟩]

/-- C6 counterexample: a category creation with no explicit slug whose
auto-generated slug is already taken fails with a slug-conflict validation
error — the category serializer has no suffixing strategy. -/
theorem category_auto_slug_collision_cex :
    categoryCreate ⟨1, [⟨0, "Hello World", "hello-world", true⟩]⟩
        ⟨some "Hello, World!", none⟩
      = .error .slugConflict := by
  decide

/-- C6 (amended): comment auto-generation always returns a candidate free
among the probed slugs (it cannot fail for collision reasons); post creation
never raises a slug-conflict error when no explicit slug is supplied (it
does not probe auto-generated slugs at all); but category creation raises a
slug-conflict validation error whenever the auto-generated slug is already
taken. -/
theorem auto_slug_collision_behaviour
    (taken : List String) (title : String)
    (pdb : PostDB) (pinp : PostInput) (hpslug : pinp.slug = none)
    (kdb : CatDB) (kinp : CatInput) (t0 : String)
    (hkt : kinp.title = some t0) (hkslug : kinp.slug = none)
    (hkfok : categoryFieldsOK kinp = true)
    (hkstrip : pyStrip t0 ≠ "")
    (hktaken : slugify (pyStrip t0) ∈ catSlugs kdb.recs) :
    generate_unique_slug taken title ∉ taken ∧
    (∀ e, postCreate pdb pinp = .error e → e ≠ .slugConflict) ∧
    categoryCreate kdb kinp = .error .slugConflict := by
  refine ⟨generate_unique_slug_not_taken taken title, ?_, ?_⟩
  · intro e he
    rw [postCreate] at he
    split at he
    · injection he with h2
      rw [← h2]
      decide
    · split at he
      · injection he with h2
        rw [← h2]
        decide
      · split at he
        · rename_i hcond
          rw [hpslug] at hcond
          simp at hcond
        · split at he
          · rename_i e2 hsw
            injection he with h2
            rw [← h2, postStoreWrite_error hsw]
            decide
          · exact absurd he (by simp)
  · have hcs : catCreateSlug kinp (pyStrip t0) = slugify (pyStrip t0) := by
      rw [catCreateSlug, if_pos]
      rw [hkslug]
      rfl
    rw [categoryCreate, if_neg (by simp [hkfok])]
    simp only [hkt]
    rw [if_neg (by simpa using hkstrip)]
    rw [if_neg (by rw [hkslug]; simp)]
    rw [if_pos (by rw [hcs]; exact hktaken)]

/-- C6 witness: concrete instances of the three behaviours. -/
theorem auto_slug_collision_behaviour_witness :
    generate_unique_slug [] "Hello World" ∉ ([] : List String) ∧
    (∀ e, postCreate postEmpty ⟨some "T", none, none⟩ = .error e → e ≠ .slugConflict) ∧
    categoryCreate ⟨1, [⟨0, "B", "b", true⟩]⟩ ⟨some "b!", none⟩ = .error .slugConflict :=
  auto_slug_collision_behaviour [] "Hello World" postEmpty ⟨some "T", none, none⟩ rfl
    ⟨1, [⟨0, "B", "b", true⟩]⟩ ⟨some "b!", none⟩ "b!" rfl rfl (by decide) (by decide)
    (by decide)

/-- C5 counterexample: on a comment update a free explicit slug is validated
but then discarded — the stored slug is regenerated from the title instead
of being used unchanged. -/
theorem explicit_slug_discarded_on_comment_update_cex :
    commentUpdate ⟨1, [⟨0, "Old Title", "old content!", "old-title", true⟩]⟩ 0
        ⟨some "Other Title", some "valid content!", some "my-slug"⟩
      = .ok ⟨1, [⟨0, "Other Title", "valid content!", "other-title", true⟩]⟩ ∧
    "my-slug" ∉ activeSlugs [⟨0, "Old Title", "old content!", "old-title", true⟩] ∧
    "other-title" ≠ "my-slug" := by
  decide

/-- C5 (amended): a taken explicit slug is rejected with a slug-conflict
error everywhere (comment create and update, category create), leaving the
collection unchanged; a free explicit slug is stored unchanged on comment
create and on category create and update — but not on comment update, which
regenerates the slug from the title (see the counterexample). -/
theorem explicit_slug_conflict_rejection
    (db : CommentDB) (inp : CommentInput) (s : String) (i : Nat)
    (hs : inp.slug = some s) (hsne : s ≠ "")
    (hfok : commentFieldsOK inp = true)
    (kdb : CatDB) (kinp : CatInput) (ks : String) (t0 : String)
    (hks : kinp.slug = some ks) (hksne : ks ≠ "")
    (hkfok : categoryFieldsOK kinp = true)
    (hkt : kinp.title = some t0) (hkstrip : pyStrip t0 ≠ "") :
    (s ∈ activeSlugs db.recs →
      commentCreate db inp = .error .slugConflict ∧ commentStep db (.create inp) = db) ∧
    (∀ db2, commentCreate db inp = .ok db2 →
      s ∉ activeSlugs db.recs ∧ ∃ r ∈ db2.recs, r.slug = s) ∧
    (s ∈ activeSlugs (db.recs.filter (fun r => r.id ≠ i)) →
      commentUpdate db i inp = .error .slugConflict) ∧
    (ks ∈ catSlugs kdb.recs → categoryCreate kdb kinp = .error .slugConflict) ∧
    (∀ kdb2, categoryCreate kdb kinp = .ok kdb2 →
      ks ∉ catSlugs kdb.recs ∧ ∃ r ∈ kdb2.recs, r.slug = ks) ∧
    (∀ kdb2, categoryUpdate kdb i kinp = .ok kdb2 →
      ∀ r ∈ kdb2.recs, r.id = i → r.slug = ks) := by
  refine ⟨?_, ?_, ?_, ?_, ?_, ?_⟩
  · intro hmem
    have hcc : commentCreate db inp = .error .slugConflict := by
      rw [commentCreate, if_neg (by simp [hfok]),
        if_pos (by rw [hs]; simp [hsne, hmem])]
    refine ⟨hcc, ?_⟩
    simp [commentStep, hcc]
  · intro db2 h
    obtain ⟨slug, hdb2, hfree, -, hexp⟩ := commentCreate_ok h
    have hss : slug = s := hexp s hs hsne
    subst hss
    refine ⟨hfree,
      ⟨db.nextId, commentEffTitle inp (inp.content.getD ""), inp.content.getD "",
        slug, true⟩, ?_, rfl⟩
    rw [hdb2]
    exact List.mem_cons_self _ _
  · intro hmem
    rw [commentUpdate, if_neg (by simp [hfok]),
      if_pos (by
        rw [hs]
        simp only [Option.any_some, Bool.and_eq_true, bne_iff_ne, ne_eq, decide_eq_true_eq]
        exact ⟨hsne, by simpa only [ne_eq, decide_not] using hmem⟩)]
  · intro hmem
    rw [categoryCreate, if_neg (by simp [hkfok])]
    simp only [hkt]
    rw [if_neg (by simpa using hkstrip),
      if_pos (by rw [hks]; simp [hksne, hmem])]
  · intro kdb2 h
    obtain ⟨t1, slug, -, hdb2, hfree, hexp⟩ := categoryCreate_ok h
    have hss : slug = ks := hexp ks hks hksne
    subst hss
    refine ⟨hfree, ⟨kdb.nextId, pyStrip t1, slug, true⟩, ?_, rfl⟩
    rw [hdb2]
    exact List.mem_cons_self _ _
  · intro kdb2 h r hr hri
    rcases categoryUpdate_ok h with ⟨rfl, hnone⟩ | ⟨r0, r2, hfind, hsave, hdb2⟩
    · have hfalse := List.find?_eq_none.mp hnone r hr
      simp [hri] at hfalse
    · subst hdb2
      obtain ⟨r1, hr1, rfl⟩ := List.mem_map.mp hr
      by_cases hc : r1.id = i
      · rw [if_pos hc] at hri ⊢
        obtain ⟨hr2eq, -⟩ := categorySave_ok hsave
        have hattr : catSlugAttr kinp = some ks := catSlugAttr_explicit hks hksne
        simp [hr2eq, hattr, hksne]
      · rw [if_neg hc] at hri
        exact absurd hri hc

/-- C5 witness: concrete instances — a taken explicit slug is rejected on
comment create, and a free explicit slug is stored on category create. -/
theorem explicit_slug_conflict_rejection_witness :
    ("taken" ∈ activeSlugs [⟨0, "A", "valid content!", "taken", true⟩] →
      commentCreate ⟨1, [⟨0, "A", "valid content!", "taken", true⟩]⟩
          ⟨some "New Title", some "valid content!", some "taken"⟩
        = .error .slugConflict ∧
      commentStep ⟨1, [⟨0, "A", "valid content!", "taken", true⟩]⟩
          (.create ⟨some "New Title", some "valid content!", some "taken"⟩)
        = ⟨1, [⟨0, "A", "valid content!", "taken", true⟩]⟩) ∧
    "taken" ∈ activeSlugs [⟨0, "A", "valid content!", "taken", true⟩] :=
  ⟨(explicit_slug_conflict_rejection
      ⟨1, [⟨0, "A", "valid content!", "taken", true⟩]⟩
      ⟨some "New Title", some "valid content!", some "taken"⟩ "taken" 0
      rfl (by decide) (by decide)
      catEmpty ⟨some "K", some "k"⟩ "k" "K" rfl (by decide) (by decide) rfl
      (by decide)).1,
    by decide⟩

/-- C9 counterexample: a category update whose payload title equals the
stored title and carries no explicit slug still recomputes the slug,
replacing the record's explicitly chosen slug `custom` with `my-cat`. -/
theorem slug_recomputed_despite_unchanged_title_cex :
    (∀ r ∈ ([⟨0, "My Cat", "custom", true⟩] : List CatRec), r.title = "My Cat") ∧
    categoryUpdate ⟨1, [⟨0, "My Cat", "custom", true⟩]⟩ 0 ⟨some "My Cat", none⟩
      = .ok ⟨1, [⟨0, "My Cat", "my-cat", true⟩]⟩ ∧
    "my-cat" ≠ "custom" := by
  decide

/-- C9 (amended): the slug is recomputed whenever the update payload merely
contains a title (changed or not): comment updates always regenerate the
slug from the effective title, even when an explicit slug was supplied;
category and post updates recompute it from the payload title whenever no
truthy slug accompanies it; only an update that carries neither title nor
slug leaves the category record (and with it its slug) unchanged. -/
theorem slug_recomputation_trigger
    (db : CommentDB) (i : Nat) (inp : CommentInput)
    (kdb : CatDB) (kinp : CatInput) (t : String)
    (pdb : PostDB) (pinp : PostInput) (pt : String) :
    (∀ db2, commentUpdate db i inp = .ok db2 → ∀ r ∈ db2.recs, r.id = i →
      r.slug = generate_unique_slug (activeSlugs db.recs)
        (commentEffTitle inp (inp.content.getD ""))) ∧
    (kinp.title = some t → kinp.slug = none →
      ∀ kdb2, categoryUpdate kdb i kinp = .ok kdb2 → ∀ r ∈ kdb2.recs, r.id = i →
        r.slug = slugify (pyStrip t)) ∧
    (kinp.title = none → kinp.slug = none → catWF kdb →
      (∀ r ∈ kdb.recs, r.id = i → r.slug ≠ "") →
      ∀ kdb2, categoryUpdate kdb i kinp = .ok kdb2 → kdb2 = kdb) ∧
    (pinp.title = some pt → pinp.slug = none →
      ∀ pdb2, postUpdate pdb i pinp = .ok pdb2 → ∀ r ∈ pdb2.recs, r.id = i →
        r.slug = pyLower (slugify pt)) := by
  refine ⟨?_, ?_, ?_, ?_⟩
  · intro db2 h r hr hri
    have hdb2 := commentUpdate_ok h
    subst hdb2
    obtain ⟨r1, hr1, rfl⟩ := List.mem_map.mp hr
    by_cases hc : r1.id = i
    · rw [if_pos hc]
    · rw [if_neg hc] at hri
      exact absurd hri hc
  · intro ht hsl kdb2 h r hr hri
    rcases categoryUpdate_ok h with ⟨rfl, hnone⟩ | ⟨r0, r2, hfind, hsave, hdb2⟩
    · have hfalse := List.find?_eq_none.mp hnone r hr
      simp [hri] at hfalse
    · subst hdb2
      obtain ⟨r1, hr1, rfl⟩ := List.mem_map.mp hr
      by_cases hc : r1.id = i
      · rw [if_pos hc]
        obtain ⟨hr2eq, -⟩ := categorySave_ok hsave
        have hattr : catSlugAttr kinp = some (slugify (pyStrip t)) :=
          catSlugAttr_title_only ht hsl
        have htA : catTitleAttr kinp = some (pyStrip t) := by
          rw [catTitleAttr, ht]
          rfl
        rw [hr2eq]
        by_cases hz : slugify (pyStrip t) = ""
        · simp [hattr, htA, hz]
        · simp [hattr, htA, hz]
      · rw [if_neg hc] at hri
        exact absurd hri hc
  · intro ht hsl hwf hne kdb2 h
    rcases categoryUpdate_ok h with ⟨rfl, -⟩ | ⟨r0, r2, hfind, hsave, hdb2⟩
    · rfl
    · obtain ⟨-, hnd, -⟩ := hwf
      have hr0mem : r0 ∈ kdb.recs := List.mem_of_find?_eq_some hfind
      have hr0i : r0.id = i := by simpa using List.find?_some hfind
      have hattr : catSlugAttr kinp = none := catSlugAttr_none ht hsl
      have htA : catTitleAttr kinp = none := by
        rw [catTitleAttr, ht]
        rfl
      have hr1 : ({ r0 with
          title := (catTitleAttr kinp).getD r0.title,
          slug := (match catSlugAttr kinp with | some s => s | none => r0.slug) } : CatRec)
            = r0 := by
        simp [hattr, htA]
      rw [hr1] at hsave
      obtain ⟨hr2eq, -⟩ := categorySave_ok hsave
      have hslugne : r0.slug ≠ "" := hne r0 hr0mem hr0i
      have hr2r0 : r2 = r0 := by
        rw [hr2eq, if_neg (by simpa using hslugne)]
      subst hdb2
      have hpt : ∀ r ∈ kdb.recs, (if r.id = i then r2 else r) = r := by
        intro r hr
        by_cases hc : r.id = i
        · rw [if_pos hc, hr2r0]
          exact catRec_eq_of_id_eq hnd hr0mem hr (hr0i.trans hc.symm)
        · rw [if_neg hc]
      have hmap : kdb.recs.map (fun r => if r.id = i then r2 else r) = kdb.recs := by
        rw [List.map_congr_left hpt, List.map_id']
      rw [hmap]
  · intro ht hsl pdb2 h r hr hri
    rcases postUpdate_ok h with ⟨rfl, hnone⟩ | ⟨r0, hfind, -, hdb2⟩
    · have hfalse := List.find?_eq_none.mp hnone r hr
      simp [hri] at hfalse
    · subst hdb2
      obtain ⟨r1, hr1, rfl⟩ := List.mem_map.mp hr
      by_cases hc : r1.id = i
      · rw [if_pos hc]
        simp [postUpdatedRow, postSlugAttr_title_only ht hsl]
      · rw [if_neg hc] at hri
        exact absurd hri hc

/-- C9 witness: applying the category branch at the counterexample input —
the updated record's slug is `slugify` of its (unchanged) title. -/
theorem slug_recomputation_trigger_witness :
    (⟨0, "My Cat", "my-cat", true⟩ : CatRec).slug = slugify (pyStrip "My Cat") :=
  (slug_recomputation_trigger commentEmpty 0 ⟨none, none, none⟩
      ⟨1, [⟨0, "My Cat", "custom", true⟩]⟩ ⟨some "My Cat", none⟩ "My Cat"
      postEmpty ⟨none, none, none⟩ "x").2.1 rfl rfl
    ⟨1, [⟨0, "My Cat", "my-cat", true⟩]⟩ (by decide)
    ⟨0, "My Cat", "my-cat", true⟩ (by decide) rfl

/-- C10: the comment probe consults only active comments and the post
explicit-slug check only published active posts, so a slug held solely by an
inactive comment (or an unpublished post) is reported free, and the resolver
(or the explicit-slug validation) assigns it to a new record, duplicating
the inactive record's slug. -/
theorem probe_ignores_inactive_records
    (db : CommentDB) (inp : CommentInput) (s : String) (r0 : CommentRec)
    (hr0 : r0 ∈ db.recs) (hr0s : r0.slug = s) (hr0act : r0.isActive = false)
    (honly : ∀ r ∈ db.recs, r.slug = s → r.isActive = false)
    (hid0 : r0.id ≠ db.nextId)
    (hts : strTake (slugify (commentEffTitle inp (inp.content.getD "")))
      SLUG_MAX_LENGTH = s)
    (hnoslug : inp.slug = none)
    (pdb : PostDB) (pinp : PostInput) (ps : String) (p0 : PostRec)
    (hp0 : p0 ∈ pdb.recs) (hp0s : p0.slug = ps)
    (honlyp : ∀ r ∈ pdb.recs, r.slug = ps →
      ¬(r.status = STATUS_PUBLISH ∧ r.isActive = true))
    (hpid0 : p0.id ≠ pdb.nextId)
    (hpslug : pinp.slug = some ps) (hpsne : ps ≠ "") (hlow : pyLower ps = ps) :
    s ∉ activeSlugs db.recs ∧
    generate_unique_slug (activeSlugs db.recs)
      (commentEffTitle inp (inp.content.getD "")) = s ∧
    ps ∉ publishedSlugs pdb.recs ∧
    (∀ db2, commentCreate db inp = .ok db2 →
      ∃ rnew ∈ db2.recs, rnew.isActive = true ∧ rnew.slug = r0.slug ∧ rnew.id ≠ r0.id) ∧
    (∀ pdb2, postCreate pdb pinp = .ok pdb2 →
      ∃ rnew ∈ pdb2.recs, rnew.slug = p0.slug ∧ rnew.id ≠ p0.id) := by
  have hfreeC : s ∉ activeSlugs db.recs := by
    intro hmem
    obtain ⟨r, hr, hact, hslug⟩ := mem_activeSlugs.mp hmem
    have hfa := honly r hr hslug
    rw [hfa] at hact
    exact Bool.false_ne_true hact
  have hgen : generate_unique_slug (activeSlugs db.recs)
      (commentEffTitle inp (inp.content.getD "")) = s := by
    have h := ((generate_unique_slug_spec (activeSlugs db.recs)
      (commentEffTitle inp (inp.content.getD ""))).1 (by rw [hts]; exact hfreeC)).1
    rw [hts] at h
    exact h
  have hfreeP : ps ∉ publishedSlugs pdb.recs := by
    intro hmem
    obtain ⟨r, hr, hst, hact, hslug⟩ := mem_publishedSlugs.mp hmem
    exact honlyp r hr hslug ⟨hst, hact⟩
  refine ⟨hfreeC, hgen, hfreeP, ?_, ?_⟩
  · intro db2 h
    obtain ⟨slug, hdb2, -, hgend, -⟩ := commentCreate_ok h
    have hslug2 : slug = s := by
      rw [hgend (by rw [hnoslug]; rfl)]
      exact hgen
    refine ⟨⟨db.nextId, commentEffTitle inp (inp.content.getD ""), inp.content.getD "",
      slug, true⟩, ?_, rfl, ?_, ?_⟩
    · rw [hdb2]
      exact List.mem_cons_self _ _
    · rw [hslug2, hr0s]
    · exact Ne.symm hid0
  · intro pdb2 h
    obtain ⟨hdb2, -, -, -⟩ := postCreate_ok h
    refine ⟨⟨pdb.nextId, pinp.title.getD "",
      pyLower (if (pinp.slug.getD "") == "" then slugify (pinp.title.getD "")
               else pinp.slug.getD ""), pinp.status.getD postDefaultStatus, true⟩,
      ?_, ?_, ?_⟩
    · rw [hdb2]
      exact List.mem_cons_self _ _
    · rw [hpslug]
      simp only [Option.getD_some]
      rw [if_neg (by simpa using hpsne), hlow, hp0s]
    · exact Ne.symm hpid0

/-- C10 witness: a fresh comment takes the slug `hello` still held by an
inactive comment. -/
theorem probe_ignores_inactive_records_witness :
    ∃ rnew ∈ (⟨6, [⟨5, "Hello", "valid content!", "hello", true⟩,
        ⟨0, "hello", "old content!", "hello", false⟩]⟩ : CommentDB).recs,
      rnew.isActive = true ∧
      rnew.slug = (⟨0, "hello", "old content!", "hello", false⟩ : CommentRec).slug ∧
      rnew.id ≠ (⟨0, "hello", "old content!", "hello", false⟩ : CommentRec).id :=
  (probe_ignores_inactive_records
    ⟨5, [⟨0, "hello", "old content!", "hello", false⟩]⟩
    ⟨some "Hello", some "valid content!", none⟩ "hello"
    ⟨0, "hello", "old content!", "hello", false⟩
    (by decide) rfl rfl (by decide) (by decide) (by decide) rfl
    ⟨1, [⟨0, "Old", "taken-slug", "draft", true⟩]⟩
    ⟨some "New", some "taken-slug", some "publish"⟩ "taken-slug"
    ⟨0, "Old", "taken-slug", "draft", true⟩
    (by decide) rfl (by decide) (by decide) rfl (by decide) (by decide)).2.2.2.1
    ⟨6, [⟨5, "Hello", "valid content!", "hello", true⟩,
      ⟨0, "hello", "old content!", "hello", false⟩]⟩ (by decide)

end Blog
